import Mathlib

/-!
Verification development for the household-budget persistence layer
(`src/lib/database.ts`, `src/hooks/useDatabase.ts` and the category-form
validation logic).  The TypeScript code is shallowly embedded: entity
records become structures, the Dexie tables become lists held in a
`Store` structure, and every mutating operation becomes an explicit
state-passing function.  JavaScript string comparison (`<`, `>=`, `<=`
on strings, which compares code units lexicographically) is embedded as
a lexicographic comparator on the character list of a `String`;
`Date.getTime()`-based comparison of ISO date strings is represented by
the same lexicographic comparator, which agrees with it on well-formed
ISO-8601 strings.  Fresh UUIDs (`crypto.randomUUID()`) and timestamps
(`new Date().toISOString()`) are supplied as explicit parameters.
-/

/-! ### JavaScript string primitives -/

/-- Strict lexicographic comparison of character lists, mirroring the
JavaScript `<` operator on strings (code-unit comparison). -/
def chLt : List Char → List Char → Bool
  | [], [] => false
  | [], _ :: _ => true
  | _ :: _, [] => false
  | a :: as, b :: bs => if a < b then true else if b < a then false else chLt as bs

/-- JavaScript `a < b` on strings. -/
def strLt (a b : String) : Bool := chLt a.data b.data

/-- JavaScript `a <= b` on strings (total order, so `a <= b` iff not `b < a`). -/
def strLe (a b : String) : Bool := !(strLt b a)

/-- ASCII lowercasing of one character, the effect of
`String.prototype.toLowerCase()` on the ASCII range. -/
def jsLowerChar (c : Char) : Char :=
  if 'A' ≤ c ∧ c ≤ 'Z' then Char.ofNat (c.toNat + 32) else c

/-- `s.toLowerCase()` as a character list. -/
def jsLower (s : String) : List Char := s.data.map jsLowerChar

/-- Is `needle` an initial segment of `hay`? -/
def chPre : List Char → List Char → Bool
  | [], _ => true
  | _ :: _, [] => false
  | a :: as, b :: bs => a == b && chPre as bs

/-- Does `needle` occur contiguously inside `hay`?  This is the semantics
of JavaScript `hay.includes(needle)`. -/
def chSub (needle : List Char) : List Char → Bool
  | [] => chPre needle []
  | hay@(_ :: rest) => chPre needle hay || chSub needle rest

/-- JavaScript whitespace test for the characters `String.prototype.trim`
removes (ASCII portion). -/
def jsWs (c : Char) : Bool := c == ' ' || c == '\t' || c == '\n' || c == '\r'

/-- `s.trim()`. -/
def jsTrim (s : String) : String :=
  ⟨((s.data.dropWhile jsWs).reverse.dropWhile jsWs).reverse⟩

/-- Numeric value of a run of ASCII digits (accumulator form), used by
the `parseInt` model. -/
def digitsVal : List Char → Int → Int
  | [], acc => acc
  | c :: cs, acc => digitsVal cs (acc * 10 + (c.toNat - '0'.toNat : Nat))

/-- `parseInt(s)` modelled for the inputs the forms produce (strings of
decimal digits): `none` stands for `NaN` (no leading digit), otherwise
the value of the leading digit run. -/
def jsParseInt (s : String) : Option Int :=
  match s.data.takeWhile (fun c => c.isDigit) with
  | [] => none
  | ds => some (digitsVal ds 0)

/-! ### Order facts about `chLt` / `strLt` -/

theorem chLt_irrefl : ∀ l : List Char, chLt l l = false := by
  intro l
  induction l with
  | nil => rfl
  | cons a as ih => simp [chLt, lt_irrefl, ih]

theorem chLt_trans : ∀ a b c : List Char,
    chLt a b = true → chLt b c = true → chLt a c = true := by
  intro a
  induction a with
  | nil =>
    intro b c hab hbc
    cases b with
    | nil => simp [chLt] at hab
    | cons y bs =>
      cases c with
      | nil => simp [chLt] at hbc
      | cons z cs => simp [chLt]
  | cons x as ih =>
    intro b c hab hbc
    cases b with
    | nil => simp [chLt] at hab
    | cons y bs =>
      cases c with
      | nil => simp [chLt] at hbc
      | cons z cs =>
        simp only [chLt] at hab hbc ⊢
        by_cases hxy : x < y
        · by_cases hyz : y < z
          · have hxz : x < z := lt_trans hxy hyz
            simp [hxz]
          · by_cases hzy : z < y
            · simp [hxy, hyz, hzy] at hbc
            · have : y = z := le_antisymm (not_lt.mp hzy) (not_lt.mp hyz)
              subst this
              simp [hxy]
        · by_cases hyx : y < x
          · simp [hxy, hyx] at hab
          · have hxyeq : x = y := le_antisymm (not_lt.mp hyx) (not_lt.mp hxy)
            subst hxyeq
            simp only [lt_irrefl, if_false] at hab
            by_cases hyz : x < z
            · simp [hyz]
            · by_cases hzy : z < x
              · simp [hyz, hzy] at hbc
              · have : x = z := le_antisymm (not_lt.mp hzy) (not_lt.mp hyz)
                subst this
                simp only [lt_irrefl, if_false] at hbc ⊢
                exact ih bs cs hab hbc

theorem chLt_conn : ∀ a b : List Char,
    chLt a b = false → chLt b a = false → a = b := by
  intro a
  induction a with
  | nil =>
    intro b hab _
    cases b with
    | nil => rfl
    | cons y bs => simp [chLt] at hab
  | cons x as ih =>
    intro b hab hba
    cases b with
    | nil => simp [chLt] at hba
    | cons y bs =>
      simp only [chLt] at hab hba
      by_cases hxy : x < y
      · simp [hxy] at hab
      · by_cases hyx : y < x
        · simp [hxy, hyx] at hba
        · have hxyeq : x = y := le_antisymm (not_lt.mp hyx) (not_lt.mp hxy)
          subst hxyeq
          simp only [lt_irrefl, if_false] at hab hba
          exact congrArg (x :: ·) (ih bs hab hba)

theorem chLt_asymm {a b : List Char} (h : chLt a b = true) : chLt b a = false := by
  by_contra hcon
  have hba : chLt b a = true := by
    cases hh : chLt b a with
    | true => rfl
    | false => exact absurd hh hcon
  have := chLt_trans a b a h hba
  rw [chLt_irrefl] at this
  exact Bool.false_ne_true this

theorem strLt_conn {a b : String} (hab : strLt a b = false)
    (hba : strLt b a = false) : a = b :=
  String.ext (chLt_conn a.data b.data hab hba)

theorem strLt_trans {a b c : String} (hab : strLt a b = true)
    (hbc : strLt b c = true) : strLt a c = true :=
  chLt_trans a.data b.data c.data hab hbc

theorem strLe_trans {a b c : String} (hab : strLe a b = true)
    (hbc : strLe b c = true) : strLe a c = true := by
  simp only [strLe, Bool.not_eq_true'] at hab hbc ⊢
  cases hca : strLt c a with
  | false => rfl
  | true =>
    exfalso
    cases hbcy : strLt b c with
    | true =>
      have hba := strLt_trans hbcy hca
      rw [hab] at hba
      exact Bool.false_ne_true hba
    | false =>
      have hbceq : b = c := strLt_conn hbcy hbc
      subst hbceq
      rw [hab] at hca
      exact Bool.false_ne_true hca

theorem strLe_total (a b : String) : (strLe a b || strLe b a) = true := by
  simp only [strLe, Bool.or_eq_true, Bool.not_eq_true']
  cases h : strLt b a with
  | false => exact Or.inl rfl
  | true => exact Or.inr (chLt_asymm h)

/-! ### Data model (from `src/types/index.ts`) -/

/-- `Transaction.type`. -/
inductive TxType where
  | expense
  | income
deriving DecidableEq

/-- `Category.type`. -/
inductive CatType where
  | expense
  | income
  | both
deriving DecidableEq

/-- A `Transaction` record. -/
structure Transaction where
  id : String
  amount : Int
  date : String
  categoryId : String
  memo : Option String := none
  type : TxType
  receiptImage : Option String := none
  createdAt : String
  updatedAt : String
  deletedAt : Option String := none
deriving DecidableEq

/-- A `Category` record. -/
structure Category where
  id : String
  name : String
  icon : String
  color : String
  type : CatType
  budget : Option Int := none
  order : Int
  createdAt : String
  updatedAt : String
deriving DecidableEq

/-- The singleton `Settings` record (its fixed id `'main'` is implicit in
the singleton representation). -/
structure Settings where
  currency : String
  weekStartsOn : Int
  theme : String
  passcodeEnabled : Bool
  passcodeHash : Option String := none
  totalBudget : Option Int := none
  language : String
  createdAt : String
  updatedAt : String
deriving DecidableEq

/-- A `Budget` record. -/
structure Budget where
  id : String
  categoryId : String
  month : String
  amount : Int
  createdAt : String
  updatedAt : String
deriving DecidableEq

/-- `ActionLog.action`. -/
inductive LogAction where
  | create
  | update
  | delete
  | restore
deriving DecidableEq

/-- `ActionLog.entityType`. -/
inductive LogEntityType where
  | transaction
  | category
  | settings
  | budget
deriving DecidableEq

/-- The `any`-typed `data` payload of an action log entry, restricted to
the shapes the hooks and `restoreTransaction` actually produce. -/
inductive LogData where
  | txFull (t : Transaction)
  | catFull (c : Category)
  | txMod (original : Transaction)
  | catMod (original : Category)
  | restoreMark
deriving DecidableEq

/-- An `ActionLog` record. -/
structure ActionLog where
  id : String
  action : LogAction
  entityType : LogEntityType
  entityId : String
  data : LogData
  timestamp : String
deriving DecidableEq

/-- The whole Dexie database: one list per table, the settings singleton
as an `Option`. -/
structure Store where
  transactions : List Transaction
  categories : List Category
  settings : Option Settings
  budgets : List Budget
  actionLogs : List ActionLog
deriving DecidableEq

/-! ### The audit logger (`Database.logAction`) -/

/-- Dexie `orderBy('timestamp')` sorts by the indexed timestamp and, for
equal timestamps, by primary key. -/
def logOrderLe (a b : ActionLog) : Bool :=
  strLt a.timestamp b.timestamp ||
    (decide (a.timestamp = b.timestamp) && strLe a.id b.id)

/-- `Database.logAction`: append the new entry, then, if the count now
exceeds 500, delete the oldest `count - 500` entries (ordered by
timestamp ascending) by their ids.  The fresh UUID `lid` and the
timestamp `ts` are explicit parameters. -/
def logAction (lid ts : String) (action : LogAction) (entityType : LogEntityType)
    (entityId : String) (data : LogData) (s : Store) : Store :=
  let logs := s.actionLogs ++ [⟨lid, action, entityType, entityId, data, ts⟩]
  let count := logs.length
  if 500 < count then
    let oldestLogs := (logs.mergeSort logOrderLe).take (count - 500)
    let idsToDelete := oldestLogs.map (fun l => l.id)
    { s with actionLogs := logs.filter (fun l => !(idsToDelete.contains l.id)) }
  else
    { s with actionLogs := logs }

/-! ### Hooked table mutations

Every create/update/delete on the `transactions` and `categories` tables
fires the corresponding Dexie hook, which calls `logAction`.  Bulk
operations need one fresh UUID per fired hook; they take a generator
`g : Nat → String` standing for the successive `crypto.randomUUID()`
results. -/

/-- `db.transactions.add(t)` plus the `creating` hook. -/
def addTxLogged (lid ts : String) (s : Store) (t : Transaction) : Store :=
  logAction lid ts .create .transaction t.id (.txFull t)
    { s with transactions := s.transactions ++ [t] }

/-- `db.categories.add(c)` plus the `creating` hook. -/
def addCatLogged (lid ts : String) (s : Store) (c : Category) : Store :=
  logAction lid ts .create .category c.id (.catFull c)
    { s with categories := s.categories ++ [c] }

/-- `db.transactions.update(id, patch)`: patches the record with primary
key `id` when present (firing the `updating` hook), otherwise does
nothing.  The patch is the function `f`. -/
def updateTxLogged (lid ts id : String) (f : Transaction → Transaction)
    (s : Store) : Store :=
  match s.transactions.find? (fun t => decide (t.id = id)) with
  | none => s
  | some orig =>
    logAction lid ts .update .transaction orig.id (.txMod orig)
      { s with transactions :=
          s.transactions.map (fun t => if t.id = id then f t else t) }

/-- `db.categories.update(id, patch)`, analogous. -/
def updateCatLogged (lid ts id : String) (f : Category → Category)
    (s : Store) : Store :=
  match s.categories.find? (fun c => decide (c.id = id)) with
  | none => s
  | some orig =>
    logAction lid ts .update .category orig.id (.catMod orig)
      { s with categories :=
          s.categories.map (fun c => if c.id = id then f c else c) }

/-- `db.transactions.bulkAdd(txs)`: one `creating` hook per record. -/
def bulkAddTx (g : Nat → String) (k : Nat) (ts : String) (s : Store) :
    List Transaction → Store
  | [] => s
  | t :: rest => bulkAddTx g (k + 1) ts (addTxLogged (g k) ts s t) rest

/-- `db.categories.bulkAdd(cats)`: one `creating` hook per record. -/
def bulkAddCat (g : Nat → String) (k : Nat) (ts : String) (s : Store) :
    List Category → Store
  | [] => s
  | c :: rest => bulkAddCat g (k + 1) ts (addCatLogged (g k) ts s c) rest

/-! ### Soft delete, restore, trash purge (`src/lib/database.ts`) -/

/-- `Database.softDeleteTransaction(id)`: fetch the record; when it
exists, set `deletedAt` and `updatedAt` to now. -/
def softDeleteTransaction (lid ts now : String) (s : Store) (id : String) : Store :=
  match s.transactions.find? (fun t => decide (t.id = id)) with
  | none => s
  | some _ =>
    updateTxLogged lid ts id
      (fun t => { t with deletedAt := some now, updatedAt := now }) s

/-- `Database.restoreTransaction(id)`: clear `deletedAt` (a no-op update
when the id is absent), then unconditionally log a `restore` action. -/
def restoreTransaction (uLid uTs rLid rTs now : String) (s : Store) (id : String) :
    Store :=
  logAction rLid rTs .restore .transaction id .restoreMark
    (updateTxLogged uLid uTs id
      (fun t => { t with deletedAt := none, updatedAt := now }) s)

/-- The `where('deletedAt').below(cutoffDate)` predicate: records whose
`deletedAt` is present and strictly below the cutoff. -/
def trashBelow (cutoff : String) (t : Transaction) : Bool :=
  match t.deletedAt with
  | some d => strLt d cutoff
  | none => false

/-- One `deleting` hook firing per physically removed record. -/
def logDeleteAll (g : Nat → String) (k : Nat) (ts : String) (s : Store) :
    List Transaction → Store
  | [] => s
  | t :: rest =>
    logDeleteAll g (k + 1) ts
      (logAction (g k) ts .delete .transaction t.id (.txFull t) s) rest

/-- `Database.permanentlyDeleteOldTrash`: physically delete every
transaction whose `deletedAt` is strictly below the cutoff (the code
computes the cutoff as now minus 30 days; it is passed in here), firing
the `deleting` hook for each. -/
def permanentlyDeleteOldTrash (g : Nat → String) (ts cutoff : String) (s : Store) :
    Store :=
  let expired := s.transactions.filter (trashBelow cutoff)
  let s1 := logDeleteAll g 0 ts s expired
  { s1 with transactions := s1.transactions.filter (fun t => !(trashBelow cutoff t)) }

/-- `Database.getActiveTransactions`. -/
def getActiveTransactions (s : Store) : List Transaction :=
  s.transactions.filter (fun t => decide (t.deletedAt = none))

/-! ### Import / export (`src/lib/database.ts`) -/

/-- The export snapshot `{version, exportDate, data: {...}}`. -/
structure ExportSnapshot where
  version : Int
  exportDate : String
  transactions : List Transaction
  categories : List Category
  settings : List Settings
  budgets : List Budget
deriving DecidableEq

/-- `Database.exportData`: full unfiltered contents of all four stores. -/
def exportData (now : String) (s : Store) : ExportSnapshot :=
  ⟨1, now, s.transactions, s.categories, s.settings.toList, s.budgets⟩

/-- Import mode. -/
inductive ImportMode where
  | overwrite
  | merge
deriving DecidableEq

/-- `Database.importData`: in overwrite mode, clear transactions,
categories and budgets (never settings); then bulk-add categories,
transactions and budgets from the snapshot (the `if (data.data.X)`
guards are always taken — a well-formed snapshot holds arrays, and
arrays are truthy); finally, if the snapshot carries at least one
settings object, the first one replaces the singleton (Dexie `update`
with the full object when the singleton exists, `add` otherwise — both
leave the singleton equal to the imported record). -/
def importData (gc gt : Nat → String) (ts : String) (snap : ExportSnapshot)
    (mode : ImportMode) (s : Store) : Store :=
  let s0 := match mode with
    | .overwrite => { s with transactions := [], categories := [], budgets := [] }
    | .merge => s
  let s1 := bulkAddCat gc 0 ts s0 snap.categories
  let s2 := bulkAddTx gt 0 ts s1 snap.transactions
  let s3 := { s2 with budgets := s2.budgets ++ snap.budgets }
  match snap.settings with
  | [] => s3
  | st :: _ =>
    match s3.settings with
    | some _ => { s3 with settings := some st }
    | none => { s3 with settings := some st }

/-! ### Filter and sort options (from `src/types/index.ts`) -/

/-- `FilterOptions`. -/
structure FilterOptions where
  dateFrom : Option String := none
  dateTo : Option String := none
  categoryIds : Option (List String) := none
  amountMin : Option Int := none
  amountMax : Option Int := none
  keyword : Option String := none
  type : Option TxType := none
deriving DecidableEq

/-- `SortOptions.field`. -/
inductive SortField where
  | date
  | amount
  | category
  | createdAt
deriving DecidableEq

/-- `SortOptions.direction`. -/
inductive SortDir where
  | asc
  | desc
deriving DecidableEq

/-- `SortOptions`. -/
structure SortOptions where
  field : SortField
  direction : SortDir
deriving DecidableEq

/-! ### JavaScript coercion helpers used by the filters -/

/-- Truthiness of an optional string (`undefined` and `''` are falsy). -/
def jsTruthyStr (o : Option String) : Bool :=
  match o with
  | none => false
  | some s => !(decide (s = ""))

/-- `o || d` for an optional string: the default replaces both
`undefined` and the falsy `''`. -/
def jsOrStr (o : Option String) (d : String) : String :=
  match o with
  | none => d
  | some s => if s = "" then d else s

/-- `o || d` for an optional number: the default replaces both
`undefined` and the falsy `0`. -/
def jsOrInt (o : Option Int) (d : Int) : Int :=
  match o with
  | none => d
  | some x => if x = 0 then d else x

/-- `Number.MAX_SAFE_INTEGER`. -/
def MAX_SAFE_INTEGER : Int := 9007199254740991

/-! ### `useTransactions` (from `src/hooks/useDatabase.ts`) -/

/-- The conjunction of the five optional `query.and` clauses built by
`useTransactions` for a given `FilterOptions`. -/
def matchesFilters (f : FilterOptions) (t : Transaction) : Bool :=
  (if jsTruthyStr f.dateFrom || jsTruthyStr f.dateTo then
      strLe (jsOrStr f.dateFrom "0000-01-01") t.date &&
        strLe t.date (jsOrStr f.dateTo "9999-12-31")
    else true) &&
  (match f.categoryIds with
    | some ids => if 0 < ids.length then ids.contains t.categoryId else true
    | none => true) &&
  (if f.amountMin.isSome || f.amountMax.isSome then
      decide (jsOrInt f.amountMin 0 ≤ t.amount) &&
        decide (t.amount ≤ jsOrInt f.amountMax MAX_SAFE_INTEGER)
    else true) &&
  (match f.keyword with
    | some k =>
      if k = "" then true
      else match t.memo with
        | some m => chSub (jsLower k) (jsLower m)
        | none => false
    | none => true) &&
  (match f.type with
    | some ty => decide (t.type = ty)
    | none => true)

/-- The explicit sort comparator of `useTransactions` (`a` sorts no
later than `b` exactly when the JS comparator returns `<= 0`).  The
`category` case compares `categoryId` as a proxy key, as the source
does. -/
def txSortLe (so : SortOptions) (a b : Transaction) : Bool :=
  match so.field, so.direction with
  | .date, .asc => strLe a.date b.date
  | .date, .desc => strLe b.date a.date
  | .amount, .asc => decide (a.amount ≤ b.amount)
  | .amount, .desc => decide (b.amount ≤ a.amount)
  | .createdAt, .asc => strLe a.createdAt b.createdAt
  | .createdAt, .desc => strLe b.createdAt a.createdAt
  | .category, .asc => strLe a.categoryId b.categoryId
  | .category, .desc => strLe b.categoryId a.categoryId

/-- The default sort (no `SortOptions`): date descending via
`new Date(b.date).getTime() - new Date(a.date).getTime()`, represented
by the lexicographic comparator (equivalent on ISO dates). -/
def dateDescLe (a b : Transaction) : Bool := strLe b.date a.date

/-- `useTransactions(filters?, sort?)`: non-deleted transactions put
through the optional filter clauses, then sorted (stably) by the
requested comparator, date-descending by default. -/
def useTransactions (filters : Option FilterOptions) (sort : Option SortOptions)
    (s : Store) : List Transaction :=
  let base := s.transactions.filter (fun t => decide (t.deletedAt = none))
  let results := match filters with
    | none => base
    | some f => base.filter (matchesFilters f)
  match sort with
  | some so => results.mergeSort (txSortLe so)
  | none => results.mergeSort dateDescLe

/-! ### `useCategories` -/

/-- Dexie `orderBy('order')`: ascending by the `order` index, ties by
primary key. -/
def catOrderLe (a b : Category) : Bool :=
  decide (a.order < b.order) || (decide (a.order = b.order) && strLe a.id b.id)

/-- `useCategories(type?)`. -/
def useCategories (ty : Option CatType) (s : Store) : List Category :=
  let base := s.categories.mergeSort catOrderLe
  match ty with
  | some t => base.filter (fun c => decide (c.type = t) || decide (c.type = .both))
  | none => base

/-! ### `useRecentCategories` -/

/-- Dexie `orderBy('createdAt').reverse()`: descending by `createdAt`,
ties by primary key descending. -/
def createdDescLe (a b : Transaction) : Bool :=
  strLt b.createdAt a.createdAt ||
    (decide (b.createdAt = a.createdAt) && strLe b.id a.id)

/-- First-occurrence deduplication, the semantics of
`Array.from(new Set(xs))`. -/
def dedupFirst (seen : List String) : List String → List String
  | [] => []
  | x :: xs =>
    if seen.contains x then dedupFirst seen xs
    else x :: dedupFirst (x :: seen) xs

/-- Dexie `get` / `bulkGet` lookup by primary key. -/
def catById (s : Store) (k : String) : Option Category :=
  s.categories.find? (fun c => decide (c.id = k))

/-- `useRecentCategories(limit)`: last 50 non-deleted transactions by
creation time, their distinct category ids in recency order, the first
`limit` of those resolved against the categories table, dropping the
ids that no longer resolve (`bulkGet` + `filter(Boolean)`). -/
def useRecentCategories (limit : Nat) (s : Store) : List Category :=
  let recentTransactions :=
    ((s.transactions.filter (fun t => decide (t.deletedAt = none))).mergeSort
        createdDescLe).take 50
  let categoryIds := dedupFirst [] (recentTransactions.map (fun t => t.categoryId))
  let limitedIds := categoryIds.take limit
  limitedIds.filterMap (catById s)

/-! ### `useMonthlyStats` and `useCategoryStats` -/

/-- The month query shared by both aggregations: non-deleted
transactions with `month-01 <= date <= month-31` (string comparison). -/
def monthTx (month : String) (s : Store) : List Transaction :=
  s.transactions.filter (fun t =>
    decide (t.deletedAt = none) &&
      strLe (month ++ "-01") t.date && strLe t.date (month ++ "-31"))

/-- The `reduce((sum, t) => sum + t.amount, 0)` sum. -/
def sumAmounts (l : List Transaction) : Int :=
  l.foldl (fun sum t => sum + t.amount) 0

/-- The result record of `useMonthlyStats`. -/
structure MonthlyStats where
  income : Int
  expense : Int
  balance : Int
  transactionCount : Nat
deriving DecidableEq

/-- `useMonthlyStats(month)`. -/
def useMonthlyStats (month : String) (s : Store) : MonthlyStats :=
  let transactions := monthTx month s
  let income := sumAmounts (transactions.filter (fun t => decide (t.type = .income)))
  let expense := sumAmounts (transactions.filter (fun t => decide (t.type = .expense)))
  ⟨income, expense, income - expense, transactions.length⟩

/-- One aggregation entry of `useCategoryStats`. -/
structure CatStat where
  categoryId : String
  categoryName : String
  amount : Int
  count : Nat
deriving DecidableEq

/-- `new Map(categories.map(c => [c.id, c])).get(k)`: with duplicate
keys the Map constructor keeps the last entry. -/
def jsMapGet (cats : List Category) (k : String) : Option Category :=
  cats.foldl (fun acc c => if c.id = k then some c else acc) none

/-- `stats.get(k)` on the association-list model of the JS `Map`. -/
def getAssoc (k : String) : List (String × CatStat) → Option CatStat
  | [] => none
  | (k', v) :: rest => if k' = k then some v else getAssoc k rest

/-- `stats.set(k, v)`: overwrite in place when the key is present
(keeping its position, as a JS `Map` does), append otherwise. -/
def setAssoc (k : String) (v : CatStat) : List (String × CatStat) → List (String × CatStat)
  | [] => [(k, v)]
  | (k', v') :: rest =>
    if k' = k then (k, v) :: rest else (k', v') :: setAssoc k v rest

/-- The body of the `transactions.forEach` loop in `useCategoryStats`:
skip a transaction whose category does not resolve, otherwise add its
amount to the (possibly fresh) entry for its category id. -/
def statStep (cats : List Category) (stats : List (String × CatStat))
    (t : Transaction) : List (String × CatStat) :=
  match jsMapGet cats t.categoryId with
  | none => stats
  | some cat =>
    let existing := (getAssoc t.categoryId stats).getD
      ⟨t.categoryId, cat.name, 0, 0⟩
    setAssoc t.categoryId
      { existing with amount := existing.amount + t.amount, count := existing.count + 1 }
      stats

/-- `useCategoryStats(month)`: group the month's transactions by
resolvable category id, then sort the entries by amount descending. -/
def useCategoryStats (month : String) (s : Store) : List CatStat :=
  let stats := (monthTx month s).foldl (statStep s.categories) []
  (stats.map Prod.snd).mergeSort (fun a b => decide (b.amount ≤ a.amount))

/-! ### Category form validation (`CategoryForm.tsx`) -/

/-- The form state relevant to validation. -/
structure CategoryFormData where
  name : String
  icon : String
  color : String
  type : CatType
  budget : String
deriving DecidableEq

/-- `CategoryForm.validateForm`, returning `true` when no error was
recorded: the trimmed name must be nonempty, at most 20 characters, and
must not case-insensitively equal the name of another category (the
category being edited, if any, is exempt); a nonempty budget string must
parse to an integer in `[0, 9999999]`.  The duplicate check's
`categories?.find(...)` is rendered as `List.any`. -/
def validateCategoryForm (form : CategoryFormData) (editing : Option Category)
    (cats : List Category) : Bool :=
  let trimmed := jsTrim form.name
  let nameOk :=
    if trimmed = "" then false
    else if 20 < trimmed.length then false
    else !(cats.any (fun cat =>
      (match editing with
        | some c => decide (cat.id ≠ c.id)
        | none => true) &&
      decide (jsLower cat.name = jsLower trimmed)))
  let budgetOk :=
    if form.budget = "" then true
    else match jsParseInt form.budget with
      | none => false
      | some b => if b < 0 then false else if 9999999 < b then false else true
  nameOk && budgetOk

/-- `useDatabase.createCategory` as invoked from `CategoryForm`: build
the record from the validated form data (fresh id and timestamps passed
in) and add it with the `creating` hook. -/
def createCategoryFromForm (cid cAt lid ts : String) (form : CategoryFormData)
    (cats : List Category) (s : Store) : Store :=
  addCatLogged lid ts s
    { id := cid
      name := jsTrim form.name
      icon := form.icon
      color := form.color
      type := form.type
      budget := if form.budget = "" then none else jsParseInt form.budget
      order := (cats.length : Int) + 1
      createdAt := cAt
      updatedAt := cAt }

/-- `CategoryForm.handleSubmit` in create mode (no category being
edited): an early return leaves the store untouched whenever validation
fails; only on success is the category created. -/
def categoryFormSubmit (cid cAt lid ts : String) (form : CategoryFormData)
    (s : Store) : Store :=
  let cats := useCategories none s
  if validateCategoryForm form none cats then
    createCategoryFromForm cid cAt lid ts form cats s
  else s

/-! ### Claim-side filter predicates (C1)

These render the specification's wording for `listTransactions`
independently of the query code: each filter has an activity condition
and, when active, an inclusive-range / membership / substring / equality
predicate.  `specAmountMax` reads the upper bound exactly as the claim
states it ("amount in [min,max] inclusive"); `specAmountMaxAmended`
additionally treats a zero upper bound as unset, which is the amendment
the code forces. -/

/-- A textual filter side is given when present and nonempty. -/
def filterGiven (o : Option String) : Bool :=
  match o with
  | none => false
  | some s => !(decide (s = ""))

/-- The date filter is active when either side is given. -/
def specDateActive (f : FilterOptions) : Bool :=
  filterGiven f.dateFrom || filterGiven f.dateTo

/-- An open-ended lower date bound defaults to the earliest possible
date. -/
def specDateFrom (f : FilterOptions) : String :=
  match f.dateFrom with
  | some s => if s = "" then "0000-01-01" else s
  | none => "0000-01-01"

/-- An open-ended upper date bound defaults to the latest possible
date. -/
def specDateTo (f : FilterOptions) : String :=
  match f.dateTo with
  | some s => if s = "" then "9999-12-31" else s
  | none => "9999-12-31"

/-- The amount filter is active when either bound is supplied. -/
def specAmountActive (f : FilterOptions) : Bool :=
  f.amountMin.isSome || f.amountMax.isSome

/-- Lower amount bound; an unset bound defaults to 0, the least possible
amount (amounts are positive integers in the data model). -/
def specAmountMin (f : FilterOptions) : Int :=
  f.amountMin.getD 0

/-- Upper amount bound exactly as the claim words it: the given value,
defaulting to the largest representable amount only when unset. -/
def specAmountMax (f : FilterOptions) : Int :=
  f.amountMax.getD MAX_SAFE_INTEGER

/-- Amended upper amount bound: a zero bound is also treated as unset
(the JavaScript `||` coercion in the code). -/
def specAmountMaxAmended (f : FilterOptions) : Int :=
  match f.amountMax with
  | some x => if x = 0 then MAX_SAFE_INTEGER else x
  | none => MAX_SAFE_INTEGER

/-- Active date filter: date within `[from, to]` inclusive. -/
def specDateOk (f : FilterOptions) (t : Transaction) : Prop :=
  specDateActive f = true →
    strLe (specDateFrom f) t.date = true ∧ strLe t.date (specDateTo f) = true

/-- Active category filter: category id in the given membership set. -/
def specCatOk (f : FilterOptions) (t : Transaction) : Prop :=
  ∀ ids, f.categoryIds = some ids → ids ≠ [] → t.categoryId ∈ ids

/-- Amount within `[min, max]` inclusive whenever the filter is active,
with the given bound reading. -/
def specAmountOk (f : FilterOptions) (t : Transaction) : Prop :=
  specAmountActive f = true →
    specAmountMin f ≤ t.amount ∧ t.amount ≤ specAmountMax f

/-- Amount clause under the amended bound reading. -/
def specAmountOkAmended (f : FilterOptions) (t : Transaction) : Prop :=
  specAmountActive f = true →
    specAmountMin f ≤ t.amount ∧ t.amount ≤ specAmountMaxAmended f

/-- Active keyword filter: case-insensitive substring match on the memo
(a transaction without a memo does not match). -/
def specKeywordOk (f : FilterOptions) (t : Transaction) : Prop :=
  ∀ k, f.keyword = some k → k ≠ "" →
    ∃ m, t.memo = some m ∧ chSub (jsLower k) (jsLower m) = true

/-- Active type filter: exact type match. -/
def specTypeOk (f : FilterOptions) (t : Transaction) : Prop :=
  ∀ ty, f.type = some ty → t.type = ty

/-- The claim's filter predicate, AND over all active filters, exactly
as stated. -/
def specFilterOk (f : FilterOptions) (t : Transaction) : Prop :=
  specDateOk f t ∧ specCatOk f t ∧ specAmountOk f t ∧
    specKeywordOk f t ∧ specTypeOk f t

/-- The amended filter predicate (zero upper amount bound unset). -/
def specFilterOkAmended (f : FilterOptions) (t : Transaction) : Prop :=
  specDateOk f t ∧ specCatOk f t ∧ specAmountOkAmended f t ∧
    specKeywordOk f t ∧ specTypeOk f t

/-! ### Helper lemmas for the query layer -/

theorem mem_useTransactions {t : Transaction} {f : FilterOptions}
    {so : Option SortOptions} {s : Store} :
    t ∈ useTransactions (some f) so s ↔
      t ∈ s.transactions ∧ t.deletedAt = none ∧ matchesFilters f t = true := by
  unfold useTransactions
  cases so with
  | none =>
    simp only [List.mem_mergeSort, List.mem_filter, decide_eq_true_eq, and_assoc]
  | some so =>
    simp only [List.mem_mergeSort, List.mem_filter, decide_eq_true_eq, and_assoc]

theorem mem_useTransactions_nofilter {t : Transaction}
    {so : Option SortOptions} {s : Store} :
    t ∈ useTransactions none so s ↔
      t ∈ s.transactions ∧ t.deletedAt = none := by
  unfold useTransactions
  cases so with
  | none => simp [List.mem_mergeSort, List.mem_filter]
  | some so => simp [List.mem_mergeSort, List.mem_filter]

theorem filterGiven_eq_jsTruthyStr (o : Option String) :
    filterGiven o = jsTruthyStr o := by
  cases o <;> rfl

theorem specDateFrom_eq (f : FilterOptions) :
    specDateFrom f = jsOrStr f.dateFrom "0000-01-01" := by
  unfold specDateFrom jsOrStr
  cases f.dateFrom <;> rfl

theorem specDateTo_eq (f : FilterOptions) :
    specDateTo f = jsOrStr f.dateTo "9999-12-31" := by
  unfold specDateTo jsOrStr
  cases f.dateTo <;> rfl

theorem specAmountMin_eq (f : FilterOptions) :
    specAmountMin f = jsOrInt f.amountMin 0 := by
  unfold specAmountMin jsOrInt
  cases h : f.amountMin with
  | none => rfl
  | some x =>
    by_cases hx : x = 0
    · subst hx; simp
    · simp [hx]

theorem specAmountMaxAmended_eq (f : FilterOptions) :
    specAmountMaxAmended f = jsOrInt f.amountMax MAX_SAFE_INTEGER := by
  unfold specAmountMaxAmended jsOrInt
  cases f.amountMax <;> rfl

theorem clauseDate_iff (f : FilterOptions) (t : Transaction) :
    (if jsTruthyStr f.dateFrom || jsTruthyStr f.dateTo then
        strLe (jsOrStr f.dateFrom "0000-01-01") t.date &&
          strLe t.date (jsOrStr f.dateTo "9999-12-31")
      else true) = true ↔ specDateOk f t := by
  unfold specDateOk specDateActive
  rw [filterGiven_eq_jsTruthyStr, filterGiven_eq_jsTruthyStr,
    specDateFrom_eq, specDateTo_eq]
  by_cases hact : (jsTruthyStr f.dateFrom || jsTruthyStr f.dateTo) = true
  · rw [if_pos hact, Bool.and_eq_true]
    exact ⟨fun h _ => h, fun h => h hact⟩
  · rw [if_neg hact]
    exact ⟨fun _ h => absurd h hact, fun _ => rfl⟩

theorem clauseCat_iff (f : FilterOptions) (t : Transaction) :
    (match f.categoryIds with
      | some ids => if 0 < ids.length then ids.contains t.categoryId else true
      | none => true) = true ↔ specCatOk f t := by
  unfold specCatOk
  cases hids : f.categoryIds with
  | none => simp [hids]
  | some ids =>
    cases ids with
    | nil => simp [hids]
    | cons a l => simp [hids, List.contains, List.elem_iff]

theorem clauseAmount_iff (f : FilterOptions) (t : Transaction) :
    (if f.amountMin.isSome || f.amountMax.isSome then
        decide (jsOrInt f.amountMin 0 ≤ t.amount) &&
          decide (t.amount ≤ jsOrInt f.amountMax MAX_SAFE_INTEGER)
      else true) = true ↔ specAmountOkAmended f t := by
  unfold specAmountOkAmended specAmountActive
  rw [specAmountMin_eq, specAmountMaxAmended_eq]
  by_cases hact : (f.amountMin.isSome || f.amountMax.isSome) = true
  · rw [if_pos hact, Bool.and_eq_true]
    simp only [decide_eq_true_eq]
    exact ⟨fun h _ => h, fun h => h hact⟩
  · rw [if_neg hact]
    exact ⟨fun _ h => absurd h hact, fun _ => rfl⟩

theorem clauseKeyword_iff (f : FilterOptions) (t : Transaction) :
    (match f.keyword with
      | some k =>
        if k = "" then true
        else match t.memo with
          | some m => chSub (jsLower k) (jsLower m)
          | none => false
      | none => true) = true ↔ specKeywordOk f t := by
  unfold specKeywordOk
  cases hk : f.keyword with
  | none => simp [hk]
  | some k =>
    by_cases hkne : k = ""
    · subst hkne; simp
    · cases hm : t.memo with
      | none => simp [hkne, hm]
      | some m => simp [hkne, hm]

theorem clauseType_iff (f : FilterOptions) (t : Transaction) :
    (match f.type with
      | some ty => decide (t.type = ty)
      | none => true) = true ↔ specTypeOk f t := by
  unfold specTypeOk
  cases hty : f.type with
  | none => simp [hty]
  | some ty => simp [hty]

/-- Pointwise equivalence between the query code's filter conjunction
and the amended claim predicate. -/
theorem matchesFilters_iff_amended (f : FilterOptions) (t : Transaction) :
    matchesFilters f t = true ↔ specFilterOkAmended f t := by
  unfold matchesFilters specFilterOkAmended
  rw [Bool.and_eq_true, Bool.and_eq_true, Bool.and_eq_true, Bool.and_eq_true,
    clauseDate_iff, clauseCat_iff, clauseAmount_iff, clauseKeyword_iff,
    clauseType_iff]
  tauto

/-! ### C1 -/

/-- A concrete active transaction used to refute the original C1 bound
reading. -/
def cxTransaction : Transaction :=
  { id := "t1", amount := 1000, date := "2024-03-10", categoryId := "c1",
    type := .expense, createdAt := "2024-03-10T00:00:00.000Z",
    updatedAt := "2024-03-10T00:00:00.000Z" }

/-- A store holding just that transaction. -/
def cxStore : Store := ⟨[cxTransaction], [], none, [], []⟩

/-- C1, counterexample: with the filter `amountMax = 0` (which the UI
can produce by typing `0` into the max-amount field), the transaction
with amount 1000 appears in the `useTransactions` result even though the
claim's "amount in [min,max] inclusive" predicate rejects it — the code
coerces the falsy bound `0` to `Number.MAX_SAFE_INTEGER` via `||`.  So
membership is not equivalent to the claim's filter predicate. -/
theorem C1_counterexample :
    cxTransaction ∈ useTransactions (some { amountMax := some 0 }) none cxStore ∧
      ¬ specFilterOk { amountMax := some 0 } cxTransaction := by
  constructor
  · exact mem_useTransactions.mpr (by decide)
  · intro h
    obtain ⟨_, _, hamt, _, _⟩ := h
    exact absurd (hamt (by decide)).2 (by decide)

/-- C1 (amended): a transaction appears in the `useTransactions` result
iff it is stored, not soft-deleted, and satisfies every active filter —
date range `[from, to]` inclusive with open-ended sides defaulting to
the earliest/latest possible date, category-id membership, amount range
`[min, max]` inclusive where an unset lower bound defaults to 0 and an
unset or zero upper bound defaults to `Number.MAX_SAFE_INTEGER`,
case-insensitive substring match of the keyword on the memo, and exact
type match, composed with AND semantics. -/
theorem C1_listTransactions_filter_semantics (s : Store) (f : FilterOptions)
    (so : Option SortOptions) (t : Transaction) :
    t ∈ useTransactions (some f) so s ↔
      t ∈ s.transactions ∧ t.deletedAt = none ∧ specFilterOkAmended f t := by
  rw [mem_useTransactions, matchesFilters_iff_amended]

/-! ### Frame lemmas for the store operations -/

theorem logAction_transactions (lid ts : String) (a : LogAction)
    (ty : LogEntityType) (eid : String) (d : LogData) (s : Store) :
    (logAction lid ts a ty eid d s).transactions = s.transactions := by
  unfold logAction
  dsimp only
  split <;> rfl

theorem logAction_categories (lid ts : String) (a : LogAction)
    (ty : LogEntityType) (eid : String) (d : LogData) (s : Store) :
    (logAction lid ts a ty eid d s).categories = s.categories := by
  unfold logAction
  dsimp only
  split <;> rfl

theorem logAction_settings (lid ts : String) (a : LogAction)
    (ty : LogEntityType) (eid : String) (d : LogData) (s : Store) :
    (logAction lid ts a ty eid d s).settings = s.settings := by
  unfold logAction
  dsimp only
  split <;> rfl

theorem logAction_budgets (lid ts : String) (a : LogAction)
    (ty : LogEntityType) (eid : String) (d : LogData) (s : Store) :
    (logAction lid ts a ty eid d s).budgets = s.budgets := by
  unfold logAction
  dsimp only
  split <;> rfl

theorem updateTxLogged_transactions_found {s : Store} {id : String} {u : Transaction}
    (lid ts : String) (f : Transaction → Transaction)
    (hf : s.transactions.find? (fun t => decide (t.id = id)) = some u) :
    (updateTxLogged lid ts id f s).transactions =
      s.transactions.map (fun t => if t.id = id then f t else t) := by
  unfold updateTxLogged
  rw [hf]
  exact logAction_transactions ..

theorem updateTxLogged_not_found {s : Store} {id : String}
    (lid ts : String) (f : Transaction → Transaction)
    (hf : s.transactions.find? (fun t => decide (t.id = id)) = none) :
    updateTxLogged lid ts id f s = s := by
  unfold updateTxLogged
  rw [hf]

theorem updateTxLogged_categories (lid ts id : String)
    (f : Transaction → Transaction) (s : Store) :
    (updateTxLogged lid ts id f s).categories = s.categories := by
  unfold updateTxLogged
  cases hf : s.transactions.find? (fun t => decide (t.id = id)) with
  | none => rfl
  | some u => exact logAction_categories ..

theorem updateTxLogged_settings (lid ts id : String)
    (f : Transaction → Transaction) (s : Store) :
    (updateTxLogged lid ts id f s).settings = s.settings := by
  unfold updateTxLogged
  cases hf : s.transactions.find? (fun t => decide (t.id = id)) with
  | none => rfl
  | some u => exact logAction_settings ..

theorem bulkAddTx_transactions (g : Nat → String) (ts : String) :
    ∀ (l : List Transaction) (k : Nat) (s : Store),
      (bulkAddTx g k ts s l).transactions = s.transactions ++ l := by
  intro l
  induction l with
  | nil => intro k s; simp [bulkAddTx]
  | cons t rest ih =>
    intro k s
    rw [bulkAddTx, ih]
    unfold addTxLogged
    rw [logAction_transactions]
    simp

theorem bulkAddTx_categories (g : Nat → String) (ts : String) :
    ∀ (l : List Transaction) (k : Nat) (s : Store),
      (bulkAddTx g k ts s l).categories = s.categories := by
  intro l
  induction l with
  | nil => intro k s; rfl
  | cons t rest ih =>
    intro k s
    rw [bulkAddTx, ih]
    unfold addTxLogged
    rw [logAction_categories]

theorem bulkAddTx_settings (g : Nat → String) (ts : String) :
    ∀ (l : List Transaction) (k : Nat) (s : Store),
      (bulkAddTx g k ts s l).settings = s.settings := by
  intro l
  induction l with
  | nil => intro k s; rfl
  | cons t rest ih =>
    intro k s
    rw [bulkAddTx, ih]
    unfold addTxLogged
    rw [logAction_settings]

theorem bulkAddCat_categories (g : Nat → String) (ts : String) :
    ∀ (l : List Category) (k : Nat) (s : Store),
      (bulkAddCat g k ts s l).categories = s.categories ++ l := by
  intro l
  induction l with
  | nil => intro k s; simp [bulkAddCat]
  | cons c rest ih =>
    intro k s
    rw [bulkAddCat, ih]
    unfold addCatLogged
    rw [logAction_categories]
    simp

theorem bulkAddCat_transactions (g : Nat → String) (ts : String) :
    ∀ (l : List Category) (k : Nat) (s : Store),
      (bulkAddCat g k ts s l).transactions = s.transactions := by
  intro l
  induction l with
  | nil => intro k s; rfl
  | cons c rest ih =>
    intro k s
    rw [bulkAddCat, ih]
    unfold addCatLogged
    rw [logAction_transactions]

theorem bulkAddCat_settings (g : Nat → String) (ts : String) :
    ∀ (l : List Category) (k : Nat) (s : Store),
      (bulkAddCat g k ts s l).settings = s.settings := by
  intro l
  induction l with
  | nil => intro k s; rfl
  | cons c rest ih =>
    intro k s
    rw [bulkAddCat, ih]
    unfold addCatLogged
    rw [logAction_settings]

theorem bulkAddCat_budgets (g : Nat → String) (ts : String) :
    ∀ (l : List Category) (k : Nat) (s : Store),
      (bulkAddCat g k ts s l).budgets = s.budgets := by
  intro l
  induction l with
  | nil => intro k s; rfl
  | cons c rest ih =>
    intro k s
    rw [bulkAddCat, ih]
    unfold addCatLogged
    rw [logAction_budgets]

theorem bulkAddTx_budgets (g : Nat → String) (ts : String) :
    ∀ (l : List Transaction) (k : Nat) (s : Store),
      (bulkAddTx g k ts s l).budgets = s.budgets := by
  intro l
  induction l with
  | nil => intro k s; rfl
  | cons t rest ih =>
    intro k s
    rw [bulkAddTx, ih]
    unfold addTxLogged
    rw [logAction_budgets]

theorem logDeleteAll_transactions (g : Nat → String) (ts : String) :
    ∀ (l : List Transaction) (k : Nat) (s : Store),
      (logDeleteAll g k ts s l).transactions = s.transactions := by
  intro l
  induction l with
  | nil => intro k s; rfl
  | cons t rest ih =>
    intro k s
    rw [logDeleteAll, ih, logAction_transactions]

theorem logDeleteAll_categories (g : Nat → String) (ts : String) :
    ∀ (l : List Transaction) (k : Nat) (s : Store),
      (logDeleteAll g k ts s l).categories = s.categories := by
  intro l
  induction l with
  | nil => intro k s; rfl
  | cons t rest ih =>
    intro k s
    rw [logDeleteAll, ih, logAction_categories]

theorem logDeleteAll_settings (g : Nat → String) (ts : String) :
    ∀ (l : List Transaction) (k : Nat) (s : Store),
      (logDeleteAll g k ts s l).settings = s.settings := by
  intro l
  induction l with
  | nil => intro k s; rfl
  | cons t rest ih =>
    intro k s
    rw [logDeleteAll, ih, logAction_settings]

theorem logDeleteAll_budgets (g : Nat → String) (ts : String) :
    ∀ (l : List Transaction) (k : Nat) (s : Store),
      (logDeleteAll g k ts s l).budgets = s.budgets := by
  intro l
  induction l with
  | nil => intro k s; rfl
  | cons t rest ih =>
    intro k s
    rw [logDeleteAll, ih, logAction_budgets]

theorem Store_eq_of_fields {a b : Store}
    (h1 : a.transactions = b.transactions) (h2 : a.categories = b.categories)
    (h3 : a.settings = b.settings) (h4 : a.budgets = b.budgets)
    (h5 : a.actionLogs = b.actionLogs) : a = b := by
  cases a; cases b
  simp_all

theorem purge_transactions (g : Nat → String) (ts cutoff : String) (s : Store) :
    (permanentlyDeleteOldTrash g ts cutoff s).transactions =
      s.transactions.filter (fun t => !(trashBelow cutoff t)) := by
  unfold permanentlyDeleteOldTrash
  dsimp only
  rw [logDeleteAll_transactions]

theorem purge_categories (g : Nat → String) (ts cutoff : String) (s : Store) :
    (permanentlyDeleteOldTrash g ts cutoff s).categories = s.categories := by
  unfold permanentlyDeleteOldTrash
  dsimp only
  rw [logDeleteAll_categories]

theorem purge_settings (g : Nat → String) (ts cutoff : String) (s : Store) :
    (permanentlyDeleteOldTrash g ts cutoff s).settings = s.settings := by
  unfold permanentlyDeleteOldTrash
  dsimp only
  rw [logDeleteAll_settings]

theorem purge_budgets (g : Nat → String) (ts cutoff : String) (s : Store) :
    (permanentlyDeleteOldTrash g ts cutoff s).budgets = s.budgets := by
  unfold permanentlyDeleteOldTrash
  dsimp only
  rw [logDeleteAll_budgets]

/-! ### C3 -/

/-- C3: exporting and re-importing in overwrite mode restores a store
whose active (non-deleted) transaction set, category set and settings
are identical to the pre-export state.  (In fact the whole transactions
list is restored; the statement records the claim's observational
conjuncts.) -/
theorem C3_export_import_overwrite_roundtrip (gc gt : Nat → String)
    (expNow ts : String) (s : Store) :
    getActiveTransactions (importData gc gt ts (exportData expNow s) .overwrite s) =
        getActiveTransactions s ∧
      (importData gc gt ts (exportData expNow s) .overwrite s).categories =
        s.categories ∧
      (importData gc gt ts (exportData expNow s) .overwrite s).settings =
        s.settings := by
  cases hset : s.settings with
  | none =>
    have hexp : exportData expNow s =
        ⟨1, expNow, s.transactions, s.categories, [], s.budgets⟩ := by
      unfold exportData
      rw [hset]
      rfl
    rw [hexp]
    unfold importData getActiveTransactions
    dsimp only
    refine ⟨?_, ?_, ?_⟩
    · simp [bulkAddTx_transactions, bulkAddCat_transactions]
    · simp [bulkAddTx_categories, bulkAddCat_categories]
    · simp [bulkAddTx_settings, bulkAddCat_settings, hset]
  | some st =>
    have hexp : exportData expNow s =
        ⟨1, expNow, s.transactions, s.categories, [st], s.budgets⟩ := by
      unfold exportData
      rw [hset]
      rfl
    rw [hexp]
    unfold importData getActiveTransactions
    dsimp only
    have hs3 : (bulkAddTx gt 0 ts
        (bulkAddCat gc 0 ts
          { s with transactions := [], categories := [], budgets := [] }
          s.categories) s.transactions).settings = some st := by
      rw [bulkAddTx_settings, bulkAddCat_settings]
      exact hset
    simp only [hs3]
    refine ⟨?_, ?_, ?_⟩
    · simp [bulkAddTx_transactions, bulkAddCat_transactions]
    · simp [bulkAddTx_categories, bulkAddCat_categories]
    · trivial

/-! ### C5 -/

theorem trashBelow_eq_false_iff (cutoff : String) (t : Transaction) :
    trashBelow cutoff t = false ↔
      ¬ ∃ d, t.deletedAt = some d ∧ strLt d cutoff = true := by
  unfold trashBelow
  cases hd : t.deletedAt with
  | none => simp
  | some d => simp

/-- The transaction purged in the concrete C5 scenario: soft-deleted 31
days before a "now" of 2024-03-31T12:00Z, i.e. below the 30-day cutoff
2024-03-01T12:00Z. -/
def purgedTx : Transaction :=
  { id := "old", amount := 100, date := "2024-01-01", categoryId := "c",
    type := .expense, createdAt := "2024-01-01T00:00:00.000Z",
    updatedAt := "2024-02-29T12:00:00.000Z",
    deletedAt := some "2024-02-29T12:00:00.000Z" }

/-- The transaction kept in the concrete C5 scenario: soft-deleted 29
days before the same "now", i.e. inside the retention window. -/
def keptTx : Transaction :=
  { id := "recent", amount := 200, date := "2024-01-02", categoryId := "c",
    type := .expense, createdAt := "2024-01-02T00:00:00.000Z",
    updatedAt := "2024-03-02T12:00:00.000Z",
    deletedAt := some "2024-03-02T12:00:00.000Z" }

/-- C5: `permanentlyDeleteOldTrash` physically deletes exactly the
transactions whose `deletedAt` is strictly below the 30-day cutoff and
no others; it is idempotent for a fixed cutoff (hence a no-op whenever
nothing is expired); and concretely, with now = 2024-03-31T12:00Z and
cutoff = now − 30 days, a transaction deleted 31 days ago is gone while
one deleted 29 days ago remains. -/
theorem C5_purge_expired :
    (∀ (g : Nat → String) (ts cutoff : String) (s : Store),
      (∀ t : Transaction,
        t ∈ (permanentlyDeleteOldTrash g ts cutoff s).transactions ↔
          t ∈ s.transactions ∧
            ¬ ∃ d, t.deletedAt = some d ∧ strLt d cutoff = true) ∧
      permanentlyDeleteOldTrash g ts cutoff
          (permanentlyDeleteOldTrash g ts cutoff s) =
        permanentlyDeleteOldTrash g ts cutoff s) ∧
    (purgedTx ∉ (permanentlyDeleteOldTrash (fun _ => "auditid")
        "2024-03-31T12:00:00.000Z" "2024-03-01T12:00:00.000Z"
        ⟨[purgedTx, keptTx], [], none, [], []⟩).transactions ∧
      keptTx ∈ (permanentlyDeleteOldTrash (fun _ => "auditid")
        "2024-03-31T12:00:00.000Z" "2024-03-01T12:00:00.000Z"
        ⟨[purgedTx, keptTx], [], none, [], []⟩).transactions) := by
  constructor
  · intro g ts cutoff s
    constructor
    · intro t
      simp only [purge_transactions, List.mem_filter, Bool.not_eq_true']
      rw [trashBelow_eq_false_iff]
    · set P := permanentlyDeleteOldTrash g ts cutoff s with hP
      have hPtx : P.transactions = s.transactions.filter
          (fun t => !(trashBelow cutoff t)) := purge_transactions ..
      have hexp : P.transactions.filter (trashBelow cutoff) = [] := by
        rw [hPtx, List.filter_filter]
        apply List.filter_eq_nil_iff.mpr
        intro a _
        simp
      apply Store_eq_of_fields
      · rw [purge_transactions, hPtx, List.filter_filter]
        simp only [Bool.and_self]
      · rw [purge_categories]
      · rw [purge_settings]
      · rw [purge_budgets]
      · show (permanentlyDeleteOldTrash g ts cutoff P).actionLogs = P.actionLogs
        unfold permanentlyDeleteOldTrash
        dsimp only
        rw [hexp]
        rfl
  · constructor
    · intro hmem
      rw [purge_transactions, List.mem_filter] at hmem
      exact absurd hmem.2 (by decide)
    · rw [purge_transactions, List.mem_filter]
      exact ⟨by decide, by decide⟩

/-! ### C6 -/

/-- C6: for an id present in the store, after `softDeleteTransaction`
the id is absent from the default `useTransactions` listing, and after a
subsequent `restoreTransaction` (no purge in between) it is present
again. -/
theorem C6_softDelete_restore_listing (s : Store)
    (id sdLid sdTs sdNow uLid uTs rLid rTs rNow : String)
    (h : ∃ t ∈ s.transactions, t.id = id) :
    id ∉ (useTransactions none none
        (softDeleteTransaction sdLid sdTs sdNow s id)).map (fun t => t.id) ∧
      id ∈ (useTransactions none none
        (restoreTransaction uLid uTs rLid rTs rNow
          (softDeleteTransaction sdLid sdTs sdNow s id) id)).map (fun t => t.id) := by
  obtain ⟨t0, ht0, hid⟩ := h
  have hfind : s.transactions.find? (fun t => decide (t.id = id)) ≠ none := by
    intro hn
    rw [List.find?_eq_none] at hn
    exact hn t0 ht0 (by simp [hid])
  cases hfound : s.transactions.find? (fun t => decide (t.id = id)) with
  | none => exact absurd hfound hfind
  | some u =>
    have hs1tx : (softDeleteTransaction sdLid sdTs sdNow s id).transactions =
        s.transactions.map (fun t =>
          if t.id = id then { t with deletedAt := some sdNow, updatedAt := sdNow }
          else t) := by
      unfold softDeleteTransaction
      rw [hfound]
      exact updateTxLogged_transactions_found sdLid sdTs _ hfound
    set s1 := softDeleteTransaction sdLid sdTs sdNow s id with hs1
    constructor
    · intro hmem
      rw [List.mem_map] at hmem
      obtain ⟨u', hu', huid⟩ := hmem
      rw [mem_useTransactions_nofilter] at hu'
      obtain ⟨hu'mem, hu'del⟩ := hu'
      rw [hs1tx, List.mem_map] at hu'mem
      obtain ⟨t, _, ht⟩ := hu'mem
      by_cases htid : t.id = id
      · rw [if_pos htid] at ht
        rw [← ht] at hu'del
        exact Option.noConfusion hu'del
      · rw [if_neg htid] at ht
        rw [← ht] at huid
        exact htid huid
    · -- the image of t0 sits in s1 with the searched id
      have ht0' : (if t0.id = id
            then { t0 with deletedAt := some sdNow, updatedAt := sdNow } else t0)
          ∈ s1.transactions := by
        rw [hs1tx]
        exact List.mem_map_of_mem _ ht0
      have ht0'id : (if t0.id = id
            then { t0 with deletedAt := some sdNow, updatedAt := sdNow }
            else t0).id = id := by
        by_cases htid : t0.id = id
        · rw [if_pos htid]
          exact htid
        · rw [if_neg htid]
          exact hid
      have hfind1 : s1.transactions.find? (fun t => decide (t.id = id)) ≠ none := by
        intro hn
        rw [List.find?_eq_none] at hn
        exact hn _ ht0' (by simp [ht0'id])
      cases hfound1 : s1.transactions.find? (fun t => decide (t.id = id)) with
      | none => exact absurd hfound1 hfind1
      | some u1 =>
        have hs2tx : (restoreTransaction uLid uTs rLid rTs rNow s1 id).transactions =
            s1.transactions.map (fun t =>
              if t.id = id then { t with deletedAt := none, updatedAt := rNow }
              else t) := by
          unfold restoreTransaction
          rw [logAction_transactions]
          exact updateTxLogged_transactions_found uLid uTs _ hfound1
        rw [List.mem_map]
        refine ⟨{ (if t0.id = id
            then { t0 with deletedAt := some sdNow, updatedAt := sdNow } else t0)
            with deletedAt := none, updatedAt := rNow }, ?_, ?_⟩
        · rw [mem_useTransactions_nofilter]
          constructor
          · rw [hs2tx, List.mem_map]
            refine ⟨_, ht0', ?_⟩
            rw [if_pos ht0'id]
          · rfl
        · exact ht0'id

/-- One-transaction store used to witness C6. -/
def wStore : Store :=
  ⟨[⟨"t1", 5, "2024-01-01", "c", none, .expense, none, "x", "x", none⟩],
    [], none, [], []⟩

/-- Witness for C6 on the concrete one-transaction store. -/
theorem C6_softDelete_restore_listing_witness :
    (∃ t ∈ wStore.transactions, t.id = "t1") ∧
      ("t1" ∉ (useTransactions none none
          (softDeleteTransaction "l1" "s1" "n1" wStore "t1")).map (fun t => t.id) ∧
        "t1" ∈ (useTransactions none none
          (restoreTransaction "l2" "s2" "l3" "s3" "n2"
            (softDeleteTransaction "l1" "s1" "n1" wStore "t1") "t1")).map
          (fun t => t.id)) :=
  ⟨by decide,
    C6_softDelete_restore_listing wStore "t1" "l1" "s1" "n1" "l2" "s2" "l3" "s3"
      "n2" (by decide)⟩

/-! ### C10 -/

theorem logAction_actionLogs_no_trim (lid ts : String) (a : LogAction)
    (ty : LogEntityType) (eid : String) (d : LogData) (s : Store)
    (h : s.actionLogs.length + 1 ≤ 500) :
    (logAction lid ts a ty eid d s).actionLogs =
      s.actionLogs ++ [⟨lid, a, ty, eid, d, ts⟩] := by
  unfold logAction
  dsimp only
  have hc : ¬ 500 <
      (s.actionLogs ++ [(⟨lid, a, ty, eid, d, ts⟩ : ActionLog)]).length := by
    rw [List.length_append, List.length_singleton]
    omega
  rw [if_neg hc]

/-- C10: `restoreTransaction` on an id absent from the store leaves the
transactions table unchanged yet still appends a `restore` action-log
entry for that id (shown here below the trimming threshold, where the
appended log survives verbatim); `softDeleteTransaction` on the same
absent id performs no update at all — the store is returned untouched. -/
theorem C10_restore_logs_unconditionally (s : Store)
    (id uLid uTs rLid rTs now : String)
    (h : ∀ t ∈ s.transactions, t.id ≠ id) :
    (restoreTransaction uLid uTs rLid rTs now s id).transactions =
        s.transactions ∧
      (s.actionLogs.length + 1 ≤ 500 →
        (restoreTransaction uLid uTs rLid rTs now s id).actionLogs =
          s.actionLogs ++
            [⟨rLid, .restore, .transaction, id, .restoreMark, rTs⟩]) ∧
      softDeleteTransaction uLid uTs now s id = s := by
  have hfind : s.transactions.find? (fun t => decide (t.id = id)) = none := by
    rw [List.find?_eq_none]
    intro t ht
    simp [h t ht]
  have hupd : updateTxLogged uLid uTs id
      (fun t => { t with deletedAt := none, updatedAt := now }) s = s :=
    updateTxLogged_not_found _ _ _ hfind
  refine ⟨?_, ?_, ?_⟩
  · unfold restoreTransaction
    rw [hupd, logAction_transactions]
  · intro hlen
    unfold restoreTransaction
    rw [hupd]
    exact logAction_actionLogs_no_trim _ _ _ _ _ _ _ hlen
  · unfold softDeleteTransaction
    rw [hfind]

/-- Witness for C10 at the empty store. -/
theorem C10_restore_logs_unconditionally_witness :
    (∀ t ∈ (⟨[], [], none, [], []⟩ : Store).transactions, t.id ≠ "x") ∧
      ((restoreTransaction "a" "b" "c" "d" "e"
          (⟨[], [], none, [], []⟩ : Store) "x").transactions =
          (⟨[], [], none, [], []⟩ : Store).transactions ∧
        ((⟨[], [], none, [], []⟩ : Store).actionLogs.length + 1 ≤ 500 →
          (restoreTransaction "a" "b" "c" "d" "e"
            (⟨[], [], none, [], []⟩ : Store) "x").actionLogs =
            (⟨[], [], none, [], []⟩ : Store).actionLogs ++
              [⟨"c", .restore, .transaction, "x", .restoreMark, "d"⟩]) ∧
        softDeleteTransaction "a" "b" "e" (⟨[], [], none, [], []⟩ : Store) "x" =
          (⟨[], [], none, [], []⟩ : Store)) :=
  ⟨by decide,
    C10_restore_logs_unconditionally ⟨[], [], none, [], []⟩ "x" "a" "b" "c" "d"
      "e" (by decide)⟩

/-! ### C4 -/

theorem sumAmounts_shift : ∀ (l : List Transaction) (a : Int),
    l.foldl (fun sum t => sum + t.amount) a = a + (l.map (fun t => t.amount)).sum := by
  intro l
  induction l with
  | nil => intro a; simp [List.foldl]
  | cons t rest ih =>
    intro a
    rw [List.foldl_cons, ih]
    simp [add_assoc]

theorem sumAmounts_eq (l : List Transaction) :
    sumAmounts l = (l.map (fun t => t.amount)).sum := by
  unfold sumAmounts
  rw [sumAmounts_shift]
  simp

/-- First transaction of the concrete C4 scenario. -/
def c4Tx1 : Transaction :=
  ⟨"a", 1000, "2024-03-15", "c1", none, .expense, none, "x", "x", none⟩

/-- Second transaction of the concrete C4 scenario. -/
def c4Tx2 : Transaction :=
  ⟨"b", 5000, "2024-03-01", "c1", none, .income, none, "x", "x", none⟩

/-- C4: `useMonthlyStats(month)` sums amounts over the non-deleted
transactions whose date lies in the string range `[month-01, month-31]`
— income as the sum over income-typed ones, expense over expense-typed
ones, balance as income − expense, and the transaction count; on the
concrete two-transaction March 2024 store, it yields
`{income := 5000, expense := 1000, balance := 4000,
transactionCount := 2}`. -/
theorem C4_monthlyStats_semantics :
    (∀ (month : String) (s : Store),
      (useMonthlyStats month s).income =
          (((monthTx month s).filter (fun t => decide (t.type = TxType.income))).map
            (fun t => t.amount)).sum ∧
        (useMonthlyStats month s).expense =
          (((monthTx month s).filter (fun t => decide (t.type = TxType.expense))).map
            (fun t => t.amount)).sum ∧
        (useMonthlyStats month s).balance =
          (useMonthlyStats month s).income - (useMonthlyStats month s).expense ∧
        (useMonthlyStats month s).transactionCount = (monthTx month s).length) ∧
    useMonthlyStats "2024-03" ⟨[c4Tx1, c4Tx2], [], none, [], []⟩ =
      ⟨5000, 1000, 4000, 2⟩ := by
  constructor
  · intro month s
    refine ⟨?_, ?_, rfl, rfl⟩
    · exact sumAmounts_eq _
    · exact sumAmounts_eq _
  · decide

/-! ### C7 -/

/-- C7: in create mode, a form whose trimmed name equals some existing
category's name case-insensitively fails validation, and `handleSubmit`
returns before any store mutation: the store is unchanged. -/
theorem C7_duplicate_name_rejected (s : Store) (form : CategoryFormData)
    (cid cAt lid ts : String)
    (h : ∃ cat ∈ s.categories, jsLower cat.name = jsLower (jsTrim form.name)) :
    validateCategoryForm form none (useCategories none s) = false ∧
      categoryFormSubmit cid cAt lid ts form s = s := by
  obtain ⟨cat, hcat, hname⟩ := h
  have hval : validateCategoryForm form none (useCategories none s) = false := by
    unfold validateCategoryForm
    dsimp only
    by_cases h1 : jsTrim form.name = ""
    · rw [if_pos h1]
      simp
    · rw [if_neg h1]
      by_cases h2 : 20 < (jsTrim form.name).length
      · rw [if_pos h2]
        simp
      · rw [if_neg h2]
        have hany : (useCategories none s).any (fun c =>
            true && decide (jsLower c.name = jsLower (jsTrim form.name))) = true := by
          rw [List.any_eq_true]
          refine ⟨cat, ?_, ?_⟩
          · unfold useCategories
            exact List.mem_mergeSort.mpr hcat
          · simp [hname]
        rw [hany]
        simp
  refine ⟨hval, ?_⟩
  unfold categoryFormSubmit
  simp only [hval]
  simp

/-- Existing category of the concrete C7 scenario. -/
def c7Cat : Category := ⟨"c1", "food", "i", "col", .expense, none, 1, "x", "x"⟩

/-- Store holding that category. -/
def c7Store : Store := ⟨[], [c7Cat], none, [], []⟩

/-- Form attempting to create "Food" while "food" exists. -/
def c7Form : CategoryFormData := ⟨"Food", "i", "col", .expense, ""⟩

/-- Witness for C7: creating "Food" when "food" exists. -/
theorem C7_duplicate_name_rejected_witness :
    (∃ cat ∈ c7Store.categories, jsLower cat.name = jsLower (jsTrim c7Form.name)) ∧
      (validateCategoryForm c7Form none (useCategories none c7Store) = false ∧
        categoryFormSubmit "cid" "cAt" "lid" "ts" c7Form c7Store = c7Store) :=
  ⟨by decide, C7_duplicate_name_rejected c7Store c7Form "cid" "cAt" "lid" "ts"
    (by decide)⟩

/-! ### C2 -/

theorem strContains_iff {l : List String} {a : String} :
    l.contains a = true ↔ a ∈ l := by
  simp [List.contains, List.elem_iff]

theorem logAction_actionLogs_trim (lid ts : String) (a : LogAction)
    (ty : LogEntityType) (eid : String) (d : LogData) (s : Store)
    (hc : 500 < (s.actionLogs ++ ([⟨lid, a, ty, eid, d, ts⟩] : List ActionLog)).length) :
    (logAction lid ts a ty eid d s).actionLogs =
      (s.actionLogs ++ ([⟨lid, a, ty, eid, d, ts⟩] : List ActionLog)).filter (fun l =>
        !((((s.actionLogs ++ ([⟨lid, a, ty, eid, d, ts⟩] : List ActionLog)).mergeSort
              logOrderLe).take
            ((s.actionLogs ++ ([⟨lid, a, ty, eid, d, ts⟩] : List ActionLog)).length - 500)).map
          (fun l => l.id)).contains l.id) := by
  unfold logAction
  dsimp only
  rw [if_pos hc]

/-- On a log list with pairwise-distinct ids (`crypto.randomUUID`), the
trimming filter removes exactly the `length − 500` entries that sort
first by `(timestamp, id)`, leaving (a permutation of) the rest. -/
theorem trim_perm_drop {logs : List ActionLog}
    (h : (logs.map (fun l => l.id)).Nodup) :
    (logs.filter (fun l =>
        !(((logs.mergeSort logOrderLe).take (logs.length - 500)).map
          (fun l => l.id)).contains l.id)).Perm
      ((logs.mergeSort logOrderLe).drop (logs.length - 500)) := by
  set sorted := logs.mergeSort logOrderLe with hsorted
  set k := logs.length - 500 with hk
  set p : ActionLog → Bool :=
    fun l => !((sorted.take k).map (fun l => l.id)).contains l.id with hp
  have hperm : logs.Perm sorted := (List.mergeSort_perm logs logOrderLe).symm
  have hnodup : (sorted.map (fun l => l.id)).Nodup := h.perm (hperm.map _)
  have hsplit : sorted = sorted.take k ++ sorted.drop k :=
    (List.take_append_drop k sorted).symm
  have hdisj : ∀ x ∈ (sorted.take k).map (fun l => l.id),
      x ∉ (sorted.drop k).map (fun l => l.id) := by
    have hh := hnodup
    rw [hsplit, List.map_append, List.nodup_append] at hh
    exact fun x hx => hh.2.2 hx
  have hfilter : sorted.filter p = sorted.drop k := by
    conv_lhs => rw [hsplit]
    rw [List.filter_append]
    have h1 : (sorted.take k).filter p = [] := by
      apply List.filter_eq_nil_iff.mpr
      intro l hl hcon
      have hmem : l.id ∈ (sorted.take k).map (fun l => l.id) :=
        List.mem_map_of_mem _ hl
      have hc2 : ((sorted.take k).map (fun l => l.id)).contains l.id = true :=
        strContains_iff.mpr hmem
      have hcon' : (!((sorted.take k).map (fun l => l.id)).contains l.id) = true :=
        hcon
      rw [hc2] at hcon'
      exact Bool.false_ne_true hcon'
    have h2 : (sorted.drop k).filter p = sorted.drop k := by
      apply List.filter_eq_self.mpr
      intro l hl
      have hmem : l.id ∈ (sorted.drop k).map (fun l => l.id) :=
        List.mem_map_of_mem _ hl
      have hnotin : l.id ∉ (sorted.take k).map (fun l => l.id) :=
        fun hx => hdisj _ hx hmem
      show (!((sorted.take k).map (fun l => l.id)).contains l.id) = true
      rw [Bool.not_eq_true']
      cases hcb : ((sorted.take k).map (fun l => l.id)).contains l.id with
      | false => rfl
      | true => exact absurd (strContains_iff.mp hcb) hnotin
    rw [h1, h2, List.nil_append]
  rw [← hfilter]
  exact hperm.filter p

/-- C2: after every `logAction` insertion whose resulting log records
carry pairwise-distinct ids (as `crypto.randomUUID` guarantees), the
action-log store holds at most 500 entries; and whenever the insertion
makes the count exceed 500, exactly the `count − 500` oldest entries in
timestamp order are removed — the survivors are precisely the remaining
entries of the timestamp-sorted list, so inserting a 501st entry leaves
exactly 500 with the single oldest gone. -/
theorem C2_actionlog_cap (s : Store) (lid ts : String) (a : LogAction)
    (ty : LogEntityType) (eid : String) (d : LogData)
    (h : ((s.actionLogs ++ ([⟨lid, a, ty, eid, d, ts⟩] : List ActionLog)).map
      (fun l => l.id)).Nodup) :
    (logAction lid ts a ty eid d s).actionLogs.length ≤ 500 ∧
      (500 < (s.actionLogs ++ ([⟨lid, a, ty, eid, d, ts⟩] : List ActionLog)).length →
        (logAction lid ts a ty eid d s).actionLogs.length = 500 ∧
        (logAction lid ts a ty eid d s).actionLogs.Perm
          (((s.actionLogs ++ ([⟨lid, a, ty, eid, d, ts⟩] : List ActionLog)).mergeSort
            logOrderLe).drop
            ((s.actionLogs ++ ([⟨lid, a, ty, eid, d, ts⟩] : List ActionLog)).length -
              500))) := by
  by_cases hc : 500 <
      (s.actionLogs ++ ([⟨lid, a, ty, eid, d, ts⟩] : List ActionLog)).length
  · have hres := logAction_actionLogs_trim lid ts a ty eid d s hc
    have hpd := trim_perm_drop h
    rw [hres]
    have hlen := hpd.length_eq
    rw [List.length_drop, List.length_mergeSort] at hlen
    have hlen500 : ((s.actionLogs ++ ([⟨lid, a, ty, eid, d, ts⟩] : List ActionLog)).filter
        (fun l =>
          !((((s.actionLogs ++ ([⟨lid, a, ty, eid, d, ts⟩] : List ActionLog)).mergeSort
                logOrderLe).take
              ((s.actionLogs ++ ([⟨lid, a, ty, eid, d, ts⟩] : List ActionLog)).length -
                500)).map
            (fun l => l.id)).contains l.id)).length = 500 := by
      rw [hlen]
      omega
    refine ⟨?_, fun _ => ⟨hlen500, hpd⟩⟩
    rw [hlen500]
  · have hres : (logAction lid ts a ty eid d s).actionLogs =
        s.actionLogs ++ ([⟨lid, a, ty, eid, d, ts⟩] : List ActionLog) := by
      unfold logAction
      dsimp only
      rw [if_neg hc]
    rw [hres]
    refine ⟨?_, fun hcc => absurd hcc hc⟩
    omega

/-- Witness for C2 at a one-entry insertion into the empty store. -/
theorem C2_actionlog_cap_witness :
    ((((⟨[], [], none, [], []⟩ : Store).actionLogs ++
        ([⟨"w", .create, .transaction, "e", .restoreMark, "t"⟩] : List ActionLog)).map
      (fun l => l.id)).Nodup) ∧
      ((logAction "w" "t" .create .transaction "e" .restoreMark
          (⟨[], [], none, [], []⟩ : Store)).actionLogs.length ≤ 500 ∧
        (500 < ((⟨[], [], none, [], []⟩ : Store).actionLogs ++
            ([⟨"w", .create, .transaction, "e", .restoreMark, "t"⟩] :
              List ActionLog)).length →
          (logAction "w" "t" .create .transaction "e" .restoreMark
            (⟨[], [], none, [], []⟩ : Store)).actionLogs.length = 500 ∧
          (logAction "w" "t" .create .transaction "e" .restoreMark
            (⟨[], [], none, [], []⟩ : Store)).actionLogs.Perm
            ((((⟨[], [], none, [], []⟩ : Store).actionLogs ++
                ([⟨"w", .create, .transaction, "e", .restoreMark, "t"⟩] :
                  List ActionLog)).mergeSort logOrderLe).drop
              (((⟨[], [], none, [], []⟩ : Store).actionLogs ++
                ([⟨"w", .create, .transaction, "e", .restoreMark, "t"⟩] :
                  List ActionLog)).length - 500)))) :=
  ⟨by decide,
    C2_actionlog_cap ⟨[], [], none, [], []⟩ "w" "t" .create .transaction "e"
      .restoreMark (by decide)⟩

/-! ### C9 -/

theorem createdDescLe_trans : ∀ a b c : Transaction,
    createdDescLe a b = true → createdDescLe b c = true →
      createdDescLe a c = true := by
  intro a b c hab hbc
  unfold createdDescLe at hab hbc ⊢
  simp only [Bool.or_eq_true, Bool.and_eq_true, decide_eq_true_eq] at hab hbc ⊢
  rcases hab with hab | ⟨hab1, hab2⟩
  · rcases hbc with hbc | ⟨hbc1, hbc2⟩
    · exact Or.inl (strLt_trans hbc hab)
    · rw [hbc1]
      exact Or.inl hab
  · rcases hbc with hbc | ⟨hbc1, hbc2⟩
    · rw [← hab1]
      exact Or.inl hbc
    · refine Or.inr ⟨?_, strLe_trans hbc2 hab2⟩
      rw [hbc1, hab1]

theorem createdDescLe_total : ∀ a b : Transaction,
    (createdDescLe a b || createdDescLe b a) = true := by
  intro a b
  unfold createdDescLe
  simp only [Bool.or_eq_true, Bool.and_eq_true, decide_eq_true_eq]
  cases hba : strLt b.createdAt a.createdAt with
  | true => exact Or.inl (Or.inl rfl)
  | false =>
    cases hab : strLt a.createdAt b.createdAt with
    | true => exact Or.inr (Or.inl rfl)
    | false =>
      have heq : b.createdAt = a.createdAt := strLt_conn hba hab
      have := strLe_total b.id a.id
      rw [Bool.or_eq_true] at this
      rcases this with h | h
      · exact Or.inl (Or.inr ⟨heq, h⟩)
      · exact Or.inr (Or.inr ⟨heq.symm, h⟩)

theorem mem_dedupFirst : ∀ (l : List String) (seen : List String) (x : String),
    x ∈ dedupFirst seen l → x ∈ l := by
  intro l
  induction l with
  | nil => intro seen x hx; exact absurd hx (List.not_mem_nil x)
  | cons a rest ih =>
    intro seen x hx
    unfold dedupFirst at hx
    by_cases hs : seen.contains a = true
    · rw [if_pos hs] at hx
      exact List.mem_cons_of_mem a (ih seen x hx)
    · rw [if_neg hs] at hx
      rcases List.mem_cons.mp hx with h | h
      · exact h ▸ List.mem_cons_self a rest
      · exact List.mem_cons_of_mem a (ih _ x h)

theorem catById_some_id {s : Store} {k : String} {c : Category}
    (h : catById s k = some c) : c.id = k := by
  unfold catById at h
  exact of_decide_eq_true
    (@List.find?_some Category (fun x => decide (x.id = k)) c s.categories h)

theorem filterMap_catById_map_id_sublist (s : Store) : ∀ ks : List String,
    ((ks.filterMap (catById s)).map (fun c => c.id)).Sublist ks := by
  intro ks
  induction ks with
  | nil => simp
  | cons k rest ih =>
    cases hf : catById s k with
    | none =>
      rw [List.filterMap_cons, hf]
      exact ih.cons k
    | some c =>
      have hcid : c.id = k := catById_some_id hf
      rw [List.filterMap_cons, hf, List.map_cons, hcid]
      exact ih.cons₂ k

/-- C9: `useRecentCategories(limit)` draws from a window of at most the
50 most recently created non-deleted transactions (the window is sorted
by `createdAt` descending), returns at most `limit` categories, each of
which resolves by id against the categories table and stems from some
window transaction; every one of the first `limit` distinct recent
category ids that still resolves has its resolved record in the result
(completeness), the returned ids are a subsequence of the distinct
window category ids in recency order (hence distinct and order
preserving), and any of the first `limit` distinct ids that no longer
resolves is skipped. -/
theorem C9_recent_categories (limit : Nat) (s : Store) :
    let window := ((s.transactions.filter (fun t =>
      decide (t.deletedAt = none))).mergeSort createdDescLe).take 50
    let ids := dedupFirst [] (window.map (fun t => t.categoryId))
    let res := useRecentCategories limit s
    res.length ≤ limit ∧ window.length ≤ 50 ∧
      window.Pairwise (fun a b => createdDescLe a b = true) ∧
      (∀ c ∈ res, catById s c.id = some c ∧ ∃ t ∈ window, t.categoryId = c.id) ∧
      (∀ k ∈ ids.take limit, ∀ c, catById s k = some c → c ∈ res) ∧
      (res.map (fun c => c.id)).Sublist (ids.take limit) ∧
      (∀ k ∈ ids.take limit, catById s k = none → ∀ c ∈ res, c.id ≠ k) := by
  intro window ids res
  have hres : res = (ids.take limit).filterMap (catById s) := rfl
  have hmemres : ∀ c ∈ res, catById s c.id = some c ∧
      ∃ t ∈ window, t.categoryId = c.id := by
    intro c hc
    rw [hres, List.mem_filterMap] at hc
    obtain ⟨k, hk, hfk⟩ := hc
    have hcid : c.id = k := catById_some_id hfk
    have hkids : k ∈ ids := (List.take_sublist limit ids).subset hk
    have hkmap : k ∈ window.map (fun t => t.categoryId) :=
      mem_dedupFirst _ [] k hkids
    rw [List.mem_map] at hkmap
    obtain ⟨t, ht, htk⟩ := hkmap
    exact ⟨by rw [hcid]; exact hfk, t, ht, by rw [htk, hcid]⟩
  refine ⟨?_, ?_, ?_, hmemres, ?_, ?_, ?_⟩
  · rw [hres]
    refine le_trans (List.length_filterMap_le _ _) ?_
    rw [List.length_take]
    omega
  · show (List.take 50 _).length ≤ 50
    rw [List.length_take]
    omega
  · exact List.Pairwise.sublist (List.take_sublist 50 _)
      (List.sorted_mergeSort createdDescLe_trans createdDescLe_total _)
  · intro k hk c hc
    rw [hres, List.mem_filterMap]
    exact ⟨k, hk, hc⟩
  · rw [hres]
    exact filterMap_catById_map_id_sublist s _
  · intro k hk hnone c hc hck
    obtain ⟨hcb, _⟩ := hmemres c hc
    rw [hck, hnone] at hcb
    exact Option.noConfusion hcb

/-! ### C8: association-list facts for the stats `Map` -/

/-- The key list of the association-list model of the JS `Map`. -/
def assocKeys (l : List (String × CatStat)) : List String := l.map Prod.fst

theorem getAssoc_setAssoc_self (k : String) (v : CatStat) :
    ∀ l, getAssoc k (setAssoc k v l) = some v := by
  intro l
  induction l with
  | nil => simp [setAssoc, getAssoc]
  | cons p rest ih =>
    obtain ⟨k', v'⟩ := p
    unfold setAssoc
    by_cases hk : k' = k
    · rw [if_pos hk]
      simp [getAssoc]
    · rw [if_neg hk]
      unfold getAssoc
      rw [if_neg hk]
      exact ih

theorem getAssoc_setAssoc_ne {k k' : String} (v : CatStat) (h : k' ≠ k) :
    ∀ l, getAssoc k (setAssoc k' v l) = getAssoc k l := by
  intro l
  induction l with
  | nil => simp [setAssoc, getAssoc, h]
  | cons p rest ih =>
    obtain ⟨k'', v''⟩ := p
    unfold setAssoc
    by_cases hk : k'' = k'
    · rw [if_pos hk]
      unfold getAssoc
      rw [if_neg (hk ▸ h), if_neg (hk ▸ h)]
    · rw [if_neg hk]
      unfold getAssoc
      by_cases hk2 : k'' = k
      · rw [if_pos hk2, if_pos hk2]
      · rw [if_neg hk2, if_neg hk2]
        exact ih

theorem setAssoc_keys (k : String) (v : CatStat) :
    ∀ l, assocKeys (setAssoc k v l) =
      if k ∈ assocKeys l then assocKeys l else assocKeys l ++ [k] := by
  intro l
  induction l with
  | nil => simp [setAssoc, assocKeys]
  | cons p rest ih =>
    obtain ⟨k', v'⟩ := p
    unfold setAssoc
    by_cases hk : k' = k
    · rw [if_pos hk]
      subst hk
      show k' :: assocKeys rest =
        if k' ∈ k' :: assocKeys rest then k' :: assocKeys rest
        else (k' :: assocKeys rest) ++ [k']
      rw [if_pos (List.mem_cons_self _ _)]
    · rw [if_neg hk]
      show k' :: assocKeys (setAssoc k v rest) =
        if k ∈ k' :: assocKeys rest then k' :: assocKeys rest
        else (k' :: assocKeys rest) ++ [k]
      have hmem : (k ∈ k' :: assocKeys rest) ↔ k ∈ assocKeys rest := by
        rw [List.mem_cons]
        constructor
        · rintro (h | h)
          · exact absurd h.symm hk
          · exact h
        · exact Or.inr
      by_cases hin : k ∈ assocKeys rest
      · rw [ih, if_pos hin, if_pos (hmem.mpr hin)]
      · rw [ih, if_neg hin, if_neg (fun h => hin (hmem.mp h))]
        rfl

theorem setAssoc_keys_nodup {k : String} {v : CatStat} {l : List (String × CatStat)}
    (h : (assocKeys l).Nodup) : (assocKeys (setAssoc k v l)).Nodup := by
  rw [setAssoc_keys]
  by_cases hin : k ∈ assocKeys l
  · rw [if_pos hin]
    exact h
  · rw [if_neg hin]
    exact List.Nodup.append h (List.nodup_singleton k)
      (by simpa [List.disjoint_singleton] using hin)

theorem getAssoc_some_mem {k : String} {v : CatStat} :
    ∀ {l}, getAssoc k l = some v → (k, v) ∈ l := by
  intro l
  induction l with
  | nil => intro h; exact absurd h (by simp [getAssoc])
  | cons p rest ih =>
    intro h
    obtain ⟨k', v'⟩ := p
    unfold getAssoc at h
    by_cases hk : k' = k
    · rw [if_pos hk] at h
      subst hk
      injection h with h2
      subst h2
      exact List.mem_cons_self _ _
    · rw [if_neg hk] at h
      exact List.mem_cons_of_mem _ (ih h)

theorem getAssoc_of_mem_nodup {k : String} {v : CatStat} :
    ∀ {l}, (assocKeys l).Nodup → (k, v) ∈ l → getAssoc k l = some v := by
  intro l
  induction l with
  | nil => intro _ h; exact absurd h (List.not_mem_nil _)
  | cons p rest ih =>
    intro hnd hmem
    obtain ⟨k', v'⟩ := p
    have hnd' : (assocKeys rest).Nodup ∧ k' ∉ assocKeys rest := by
      have hh := hnd
      rw [show assocKeys ((k', v') :: rest) = k' :: assocKeys rest from rfl,
        List.nodup_cons] at hh
      exact ⟨hh.2, hh.1⟩
    rcases List.mem_cons.mp hmem with h | h
    · injection h with h1 h2
      subst h1
      subst h2
      unfold getAssoc
      rw [if_pos rfl]
    · unfold getAssoc
      by_cases hk : k' = k
      · exfalso
        subst hk
        exact hnd'.2 (List.mem_map_of_mem Prod.fst h)
      · rw [if_neg hk]
        exact ih hnd'.1 h

theorem mem_setAssoc {k k' : String} {v v' : CatStat} :
    ∀ {l}, (k', v') ∈ setAssoc k v l → (k', v') = (k, v) ∨ (k', v') ∈ l := by
  intro l
  induction l with
  | nil =>
    intro h
    unfold setAssoc at h
    rcases List.mem_cons.mp h with h | h
    · exact Or.inl h
    · exact absurd h (List.not_mem_nil _)
  | cons p rest ih =>
    intro h
    obtain ⟨k2, v2⟩ := p
    unfold setAssoc at h
    by_cases hk : k2 = k
    · rw [if_pos hk] at h
      rcases List.mem_cons.mp h with h | h
      · exact Or.inl h
      · exact Or.inr (List.mem_cons_of_mem _ h)
    · rw [if_neg hk] at h
      rcases List.mem_cons.mp h with h | h
      · exact Or.inr (h ▸ List.mem_cons_self _ _)
      · rcases ih h with h2 | h2
        · exact Or.inl h2
        · exact Or.inr (List.mem_cons_of_mem _ h2)

theorem sumAmounts_nil : sumAmounts [] = 0 := rfl

theorem sumAmounts_cons (t : Transaction) (l : List Transaction) :
    sumAmounts (t :: l) = t.amount + sumAmounts l := by
  rw [sumAmounts_eq, sumAmounts_eq, List.map_cons, List.sum_cons]

theorem statStep_getAssoc_ne (cats : List Category) {t : Transaction} {k : String}
    (h : t.categoryId ≠ k) (acc : List (String × CatStat)) :
    getAssoc k (statStep cats acc t) = getAssoc k acc := by
  unfold statStep
  cases hm : jsMapGet cats t.categoryId with
  | none => rfl
  | some cat =>
    dsimp only
    exact getAssoc_setAssoc_ne _ h _

theorem statStep_keys_nodup (cats : List Category) {acc : List (String × CatStat)}
    (h : (assocKeys acc).Nodup) (t : Transaction) :
    (assocKeys (statStep cats acc t)).Nodup := by
  unfold statStep
  cases jsMapGet cats t.categoryId with
  | none => exact h
  | some cat => exact setAssoc_keys_nodup h

theorem statsFold_keys_nodup (cats : List Category) :
    ∀ (txs : List Transaction) (acc : List (String × CatStat)),
      (assocKeys acc).Nodup →
        (assocKeys (txs.foldl (statStep cats) acc)).Nodup := by
  intro txs
  induction txs with
  | nil => intro acc h; exact h
  | cons t rest ih =>
    intro acc h
    rw [List.foldl_cons]
    exact ih _ (statStep_keys_nodup cats h t)

/-- Characterization of the grouping fold of `useCategoryStats`: after
folding a transaction list over an accumulator, the entry at key `k` is
the accumulator's entry merged with the sum and count of the processed
transactions carrying category id `k` — provided `k` resolves through
the category map; otherwise the accumulator's entry is untouched. -/
theorem statsFold_getAssoc (cats : List Category) :
    ∀ (txs : List Transaction) (acc : List (String × CatStat)) (k : String),
      getAssoc k (txs.foldl (statStep cats) acc) =
        match jsMapGet cats k with
        | none => getAssoc k acc
        | some cat =>
          if txs.filter (fun t => decide (t.categoryId = k)) = [] then
            getAssoc k acc
          else
            some
              { categoryId :=
                  ((getAssoc k acc).getD ⟨k, cat.name, 0, 0⟩).categoryId
                categoryName :=
                  ((getAssoc k acc).getD ⟨k, cat.name, 0, 0⟩).categoryName
                amount := ((getAssoc k acc).getD ⟨k, cat.name, 0, 0⟩).amount +
                  sumAmounts (txs.filter (fun t => decide (t.categoryId = k)))
                count := ((getAssoc k acc).getD ⟨k, cat.name, 0, 0⟩).count +
                  (txs.filter (fun t => decide (t.categoryId = k))).length } := by
  intro txs
  induction txs with
  | nil =>
    intro acc k
    cases hm : jsMapGet cats k with
    | none => rfl
    | some cat => simp
  | cons t rest ih =>
    intro acc k
    rw [List.foldl_cons, ih]
    by_cases hk : t.categoryId = k
    · subst hk
      cases hm : jsMapGet cats t.categoryId with
      | none =>
        dsimp only
        have hstep : statStep cats acc t = acc := by
          unfold statStep
          rw [hm]
        rw [hstep]
      | some cat =>
        dsimp only
        have hstep : statStep cats acc t =
            setAssoc t.categoryId
              { categoryId := ((getAssoc t.categoryId acc).getD
                  ⟨t.categoryId, cat.name, 0, 0⟩).categoryId
                categoryName := ((getAssoc t.categoryId acc).getD
                  ⟨t.categoryId, cat.name, 0, 0⟩).categoryName
                amount := ((getAssoc t.categoryId acc).getD
                  ⟨t.categoryId, cat.name, 0, 0⟩).amount + t.amount
                count := ((getAssoc t.categoryId acc).getD
                  ⟨t.categoryId, cat.name, 0, 0⟩).count + 1 } acc := by
          unfold statStep
          rw [hm]
        rw [hstep, getAssoc_setAssoc_self]
        rw [List.filter_cons_of_pos (by simp)]
        rw [if_neg (List.cons_ne_nil _ _)]
        by_cases hrel :
            rest.filter (fun t2 => decide (t2.categoryId = t.categoryId)) = []
        · rw [if_pos hrel, hrel]
          simp only [Option.getD_some, Option.some.injEq, CatStat.mk.injEq,
            sumAmounts_cons, sumAmounts_nil, List.length_cons, List.length_nil,
            eq_self_iff_true, true_and, and_true]
          omega
        · rw [if_neg hrel]
          simp only [Option.getD_some, Option.some.injEq, CatStat.mk.injEq,
            sumAmounts_cons, List.length_cons, eq_self_iff_true, true_and,
            and_true]
          omega
    · have hga := statStep_getAssoc_ne cats hk acc
      have hfilt : (t :: rest).filter (fun t2 => decide (t2.categoryId = k)) =
          rest.filter (fun t2 => decide (t2.categoryId = k)) :=
        List.filter_cons_of_neg (by simp [hk])
      rw [hfilt, hga]

theorem statsFold_getAssoc_nil (cats : List Category) (txs : List Transaction)
    (k : String) :
    getAssoc k (txs.foldl (statStep cats) []) =
      match jsMapGet cats k with
      | none => none
      | some cat =>
        if txs.filter (fun t => decide (t.categoryId = k)) = [] then none
        else some ⟨k, cat.name,
          sumAmounts (txs.filter (fun t => decide (t.categoryId = k))),
          (txs.filter (fun t => decide (t.categoryId = k))).length⟩ := by
  rw [statsFold_getAssoc]
  cases hm : jsMapGet cats k with
  | none => rfl
  | some cat =>
    dsimp only
    by_cases hrel : txs.filter (fun t => decide (t.categoryId = k)) = []
    · rw [if_pos hrel, if_pos hrel]
      rfl
    · rw [if_neg hrel, if_neg hrel]
      simp [getAssoc]

theorem catStatLe_trans : ∀ a b c : CatStat,
    decide (b.amount ≤ a.amount) = true → decide (c.amount ≤ b.amount) = true →
      decide (c.amount ≤ a.amount) = true := by
  intro a b c hab hbc
  exact decide_eq_true (le_trans (of_decide_eq_true hbc) (of_decide_eq_true hab))

theorem catStatLe_total : ∀ a b : CatStat,
    (decide (b.amount ≤ a.amount) || decide (a.amount ≤ b.amount)) = true := by
  intro a b
  rcases le_total b.amount a.amount with h | h
  · rw [decide_eq_true h]
    rfl
  · rw [decide_eq_true h]
    simp

/-- C8: `useCategoryStats(month)` produces, for each category id that
both resolves through the category map and carries at least one
transaction that month, exactly one entry — named after the resolved
category, with the total amount and count of that id's monthly
transactions — sorted by total amount descending; a monthly transaction
whose category id does not resolve yields no entry at all while still
being counted in `useMonthlyStats`'s transaction count for the same
month. -/
theorem C8_category_stats (month : String) (s : Store) :
    let mtx := monthTx month s
    let res := useCategoryStats month s
    (∀ e ∈ res, ∃ cat, jsMapGet s.categories e.categoryId = some cat ∧
        e.categoryName = cat.name ∧
        mtx.filter (fun t => decide (t.categoryId = e.categoryId)) ≠ [] ∧
        e.amount =
          sumAmounts (mtx.filter (fun t => decide (t.categoryId = e.categoryId))) ∧
        e.count =
          (mtx.filter (fun t => decide (t.categoryId = e.categoryId))).length) ∧
      (res.map (fun e => e.categoryId)).Nodup ∧
      (∀ t ∈ mtx, (∃ cat, jsMapGet s.categories t.categoryId = some cat) →
        ∃ e ∈ res, e.categoryId = t.categoryId) ∧
      res.Pairwise (fun a b => b.amount ≤ a.amount) ∧
      (∀ t ∈ mtx, jsMapGet s.categories t.categoryId = none →
        ∀ e ∈ res, e.categoryId ≠ t.categoryId) ∧
      (useMonthlyStats month s).transactionCount = mtx.length := by
  intro mtx res
  have hnd : (assocKeys (mtx.foldl (statStep s.categories) [])).Nodup :=
    statsFold_keys_nodup s.categories mtx [] (by simp [assocKeys])
  have hres : res = ((mtx.foldl (statStep s.categories) []).map
      Prod.snd).mergeSort (fun a b => decide (b.amount ≤ a.amount)) := rfl
  have hmemres : ∀ e, e ∈ res ↔
      e ∈ (mtx.foldl (statStep s.categories) []).map Prod.snd := by
    intro e
    rw [hres, List.mem_mergeSort]
  have hchar : ∀ e ∈ res, ∃ cat,
      jsMapGet s.categories e.categoryId = some cat ∧
      e.categoryName = cat.name ∧
      mtx.filter (fun t => decide (t.categoryId = e.categoryId)) ≠ [] ∧
      e.amount =
        sumAmounts (mtx.filter (fun t => decide (t.categoryId = e.categoryId))) ∧
      e.count =
        (mtx.filter (fun t => decide (t.categoryId = e.categoryId))).length := by
    intro e he
    rw [hmemres, List.mem_map] at he
    obtain ⟨⟨k, e'⟩, hp, hpe⟩ := he
    have hpe' : e' = e := hpe
    subst hpe'
    have hget : getAssoc k (mtx.foldl (statStep s.categories) []) = some e' :=
      getAssoc_of_mem_nodup hnd hp
    rw [statsFold_getAssoc_nil] at hget
    cases hm : jsMapGet s.categories k with
    | none =>
      rw [hm] at hget
      exact absurd hget (by simp)
    | some cat =>
      rw [hm] at hget
      dsimp only at hget
      by_cases hrel : mtx.filter (fun t => decide (t.categoryId = k)) = []
      · rw [if_pos hrel] at hget
        exact absurd hget (by simp)
      · rw [if_neg hrel] at hget
        injection hget with hrec
        subst hrec
        exact ⟨cat, hm, rfl, hrel, rfl, rfl⟩
  have hsnd : ∀ p ∈ mtx.foldl (statStep s.categories) [],
      (Prod.snd p).categoryId = p.1 := by
    intro p hp
    obtain ⟨k, v⟩ := p
    have hget : getAssoc k (mtx.foldl (statStep s.categories) []) = some v :=
      getAssoc_of_mem_nodup hnd hp
    rw [statsFold_getAssoc_nil] at hget
    cases hm : jsMapGet s.categories k with
    | none =>
      rw [hm] at hget
      exact absurd hget (by simp)
    | some cat =>
      rw [hm] at hget
      dsimp only at hget
      by_cases hrel : mtx.filter (fun t => decide (t.categoryId = k)) = []
      · rw [if_pos hrel] at hget
        exact absurd hget (by simp)
      · rw [if_neg hrel] at hget
        injection hget with hrec
        subst hrec
        rfl
  refine ⟨hchar, ?_, ?_, ?_, ?_, rfl⟩
  · have hp : res.Perm ((mtx.foldl (statStep s.categories) []).map Prod.snd) := by
      rw [hres]
      exact List.mergeSort_perm _ _
    have hmp := hp.map (fun e => e.categoryId)
    rw [List.map_map] at hmp
    have hcongr : (mtx.foldl (statStep s.categories) []).map
        ((fun e => e.categoryId) ∘ Prod.snd) =
        (mtx.foldl (statStep s.categories) []).map Prod.fst := by
      apply List.map_congr_left
      intro p hp2
      exact hsnd p hp2
    rw [hcongr] at hmp
    exact hmp.symm.nodup hnd
  · intro t ht hresolve
    obtain ⟨cat, hm⟩ := hresolve
    have hrel : mtx.filter (fun t2 => decide (t2.categoryId = t.categoryId)) ≠ [] := by
      intro hnil
      have hmemf : t ∈ mtx.filter (fun t2 => decide (t2.categoryId = t.categoryId)) :=
        List.mem_filter.mpr ⟨ht, by simp⟩
      rw [hnil] at hmemf
      exact List.not_mem_nil t hmemf
    have hget : getAssoc t.categoryId (mtx.foldl (statStep s.categories) []) =
        some ⟨t.categoryId, cat.name,
          sumAmounts (mtx.filter (fun t2 => decide (t2.categoryId = t.categoryId))),
          (mtx.filter (fun t2 => decide (t2.categoryId = t.categoryId))).length⟩ := by
      rw [statsFold_getAssoc_nil, hm]
      dsimp only
      rw [if_neg hrel]
    exact ⟨⟨t.categoryId, cat.name,
        sumAmounts (mtx.filter (fun t2 => decide (t2.categoryId = t.categoryId))),
        (mtx.filter (fun t2 => decide (t2.categoryId = t.categoryId))).length⟩,
      (hmemres _).mpr (List.mem_map_of_mem Prod.snd (getAssoc_some_mem hget)), rfl⟩
  · rw [hres]
    exact (List.sorted_mergeSort catStatLe_trans catStatLe_total _).imp
      (fun hab => of_decide_eq_true hab)
  · intro t ht hnone e he hek
    obtain ⟨cat, hm, _⟩ := hchar e he
    rw [hek, hnone] at hm
    exact Option.noConfusion hm
